import Mathlib

/-!
Shallow embedding of `src/backend/app/services/rule_engine.py` and proofs
about its specified behaviour.

Modelling conventions, used throughout:
* Python values flowing through the engine are modelled by the inductive
  type `Value` (None, bool, int, `decimal.Decimal` as an exact rational,
  str, datetime as an integer ordering key, list, dict).
* Python dicts are modelled by `VDict`, an insertion-ordered association
  list with unique keys by convention; all operations use the first
  occurrence of a key. `VList`/`VDict` are mutual with `Value` (rather
  than `List Value`) so that every function on them is structurally
  recursive and computable by the kernel.
* Python exceptions are modelled with `Except String`; the string is the
  `str(e)` payload that the engine interpolates into trace entries.
* `decimal.Decimal` values are modelled as rationals (`ℚ`): every decimal
  string denotes an exact rational, and `Decimal(str(x))` round-trips
  exactly, so comparisons coincide with the rational comparisons.
* Python container equality (`==` on lists and dicts) is modelled
  structurally; Python compares dicts ignoring insertion order, which can
  differ only for dict-valued transaction fields that no rule produces.
-/

namespace FinAdvisor

mutual

/-- Model of the Python runtime values that flow through the rule engine:
None, bool, int, Decimal (exact rational), str, datetime (as an integer
ordering key), list, dict. -/
inductive Value : Type where
  | vNull : Value
  | vBool (b : Bool) : Value
  | vInt (n : Int) : Value
  | vDec (q : ℚ) : Value
  | vStr (s : String) : Value
  | vDate (t : Int) : Value
  | vList (l : VList) : Value
  | vDict (d : VDict) : Value

/-- A Python list of values. -/
inductive VList : Type where
  | nil : VList
  | cons (hd : Value) (tl : VList) : VList

/-- A Python dict with string keys (insertion ordered). -/
inductive VDict : Type where
  | nil : VDict
  | cons (key : String) (val : Value) (tl : VDict) : VDict

end

/-- A Python dict, as used for transactions, rules, conditions, actions
and trace entries. -/
abbrev Dict : Type := VDict

/-- Build a `VList` from a Lean list (for concrete inputs). -/
def vl : List Value → VList
  | [] => .nil
  | x :: xs => .cons x (vl xs)

/-- Build a `VDict` from a Lean list of bindings (for concrete inputs). -/
def vd : List (String × Value) → VDict
  | [] => .nil
  | (k, v) :: xs => .cons k v (vd xs)

/-- The Lean list underlying a `VList`. -/
def VList.toList : VList → List Value
  | .nil => []
  | .cons x xs => x :: xs.toList

/-- The Lean list of bindings underlying a `VDict`. -/
def VDict.toList : VDict → List (String × Value)
  | .nil => []
  | .cons k v xs => (k, v) :: xs.toList

/-- Keys of a dict, in insertion order. -/
def VDict.keys : VDict → List String
  | .nil => []
  | .cons k _ xs => k :: xs.keys

mutual

/-- Structural equality on values (Lean-level; Python `==` is the
separate `pyEq` below, which adds the numeric tower). -/
def beqV : Value → Value → Bool
  | .vNull, .vNull => true
  | .vBool a, .vBool b => a = b
  | .vInt a, .vInt b => a = b
  | .vDec a, .vDec b => a = b
  | .vStr a, .vStr b => a = b
  | .vDate a, .vDate b => a = b
  | .vList a, .vList b => beqL a b
  | .vDict a, .vDict b => beqD a b
  | _, _ => false

/-- Elementwise structural equality of value lists. -/
def beqL : VList → VList → Bool
  | .nil, .nil => true
  | .cons a as, .cons b bs => beqV a b && beqL as bs
  | _, _ => false

/-- Pointwise structural equality of dicts (key and value). -/
def beqD : VDict → VDict → Bool
  | .nil, .nil => true
  | .cons k1 v1 as, .cons k2 v2 bs => k1 = k2 && beqV v1 v2 && beqD as bs
  | _, _ => false

end

mutual

theorem beqV_iff : ∀ a b : Value, beqV a b = true ↔ a = b
  | .vNull, b => by cases b <;> simp [beqV]
  | .vBool a, b => by cases b <;> simp [beqV]
  | .vInt a, b => by cases b <;> simp [beqV]
  | .vDec a, b => by cases b <;> simp [beqV]
  | .vStr a, b => by cases b <;> simp [beqV]
  | .vDate a, b => by cases b <;> simp [beqV]
  | .vList a, b => by
    cases b <;> simp [beqV]
    exact beqL_iff a _
  | .vDict a, b => by
    cases b <;> simp [beqV]
    exact beqD_iff a _

theorem beqL_iff : ∀ a b : VList, beqL a b = true ↔ a = b
  | .nil, b => by cases b <;> simp [beqL]
  | .cons a as, b => by
    cases b with
    | nil => simp [beqL]
    | cons hd tl => simp [beqL, beqV_iff a hd, beqL_iff as tl]

theorem beqD_iff : ∀ a b : VDict, beqD a b = true ↔ a = b
  | .nil, b => by cases b <;> simp [beqD]
  | .cons k a as, b => by
    cases b with
    | nil => simp [beqD]
    | cons k2 v2 tl => simp [beqD, beqV_iff a v2, beqD_iff as tl, and_assoc]

end

instance : DecidableEq Value := fun a b => decidable_of_iff _ (beqV_iff a b)

instance : DecidableEq VList := fun a b => decidable_of_iff _ (beqL_iff a b)

instance : DecidableEq VDict := fun a b => decidable_of_iff _ (beqD_iff a b)

mutual

/-- A computable size measure, used as recursion fuel for the functions
that walk condition trees through dict lookups. -/
def vsize : Value → Nat
  | .vList l => 1 + lsize l
  | .vDict d => 1 + dsize d
  | _ => 1

/-- Size of a value list. -/
def lsize : VList → Nat
  | .nil => 1
  | .cons x xs => 1 + vsize x + lsize xs

/-- Size of a dict. -/
def dsize : VDict → Nat
  | .nil => 1
  | .cons _ v xs => 1 + vsize v + dsize xs

end

/-- `d.get(k)` returning `Option`: the first binding of `k`. -/
def dGet : Dict → String → Option Value
  | .nil, _ => none
  | .cons k1 v1 rest, k => if k1 = k then some v1 else dGet rest k

/-- `d.get(k, default)`. -/
def dGetD (d : Dict) (k : String) (dflt : Value) : Value :=
  (dGet d k).getD dflt

/-- `k in d`. -/
def hasKey (d : Dict) (k : String) : Bool :=
  (dGet d k).isSome

/-- `d[k] = v`: replace the first binding of `k`, or append a new one
(Python dicts keep insertion order and update in place). -/
def dSet : Dict → String → Value → Dict
  | .nil, k, v => .cons k v .nil
  | .cons k1 v1 rest, k, v =>
    if k1 = k then .cons k v rest else .cons k1 v1 (dSet rest k v)

/-- `d.pop(k)` (the binding removal part): drop the first binding of `k`. -/
def eraseKey : Dict → String → Dict
  | .nil, _ => .nil
  | .cons k1 v1 rest, k =>
    if k1 = k then rest else .cons k1 v1 (eraseKey rest k)

/-- `d[k]` with a `KeyError` when absent; `str(KeyError(k))` is the repr
of the key, hence the quotes in the message. -/
def getItem (d : Dict) (k : String) : Except String Value :=
  match dGet d k with
  | some v => .ok v
  | none => .error ("'" ++ k ++ "'")

/-- Python truthiness (`bool(x)`). -/
def truthy : Value → Bool
  | .vNull => false
  | .vBool b => b
  | .vInt n => n ≠ 0
  | .vDec q => q ≠ 0
  | .vStr s => s ≠ ""
  | .vDate _ => true
  | .vList l => l ≠ .nil
  | .vDict d => d ≠ .nil

/-- Numeric view of a value: Python treats bool, int and Decimal as one
numeric tower for `==` and `<`. -/
def toQ : Value → Option ℚ
  | .vBool b => some (if b then 1 else 0)
  | .vInt n => some (n : ℚ)
  | .vDec q => some q
  | _ => none

/-- Python `==`: numeric values compare by value across bool/int/Decimal;
`None == None` is true; strings and dates by value; containers are
compared structurally (see the modelling note at the top of the file);
any other cross-type comparison is `False`. -/
def pyEq (a b : Value) : Bool :=
  match toQ a, toQ b with
  | some x, some y => x = y
  | _, _ =>
    match a, b with
    | .vNull, .vNull => true
    | .vStr s, .vStr t => s = t
    | .vDate x, .vDate y => x = y
    | .vList _, .vList _ => beqV a b
    | .vDict _, .vDict _ => beqV a b
    | _, _ => false

/-- Numeral value of a list of decimal digits. -/
def natOfDigits (cs : List Char) : Nat :=
  cs.foldl (fun acc c => acc * 10 + (c.toNat - '0'.toNat)) 0

/-- Parse of a plain decimal literal `[sign] digits [. digits]` to an
exact rational, modelling the `decimal.Decimal` string constructor.
Modelled from the numeric literals the engine actually receives;
exponent, infinity and NaN forms of the Decimal grammar are outside the
model and rejected like any other malformed string. -/
def parseDec (s : String) : Except String ℚ :=
  let cs := s.data
  let (sgn, cs) : (Int × List Char) :=
    match cs with
    | '-' :: r => (-1, r)
    | '+' :: r => (1, r)
    | _ => (1, cs)
  let ip := cs.takeWhile Char.isDigit
  let rest := cs.dropWhile Char.isDigit
  match rest with
  | [] =>
    if ip.isEmpty then .error "[<class 'decimal.ConversionSyntax'>]"
    else .ok (sgn * (natOfDigits ip : ℚ))
  | '.' :: fr =>
    if fr.all Char.isDigit ∧ ¬ (ip.isEmpty ∧ fr.isEmpty) then
      .ok (sgn * ((natOfDigits ip : ℚ) + mkRat (natOfDigits fr) (10 ^ fr.length)))
    else .error "[<class 'decimal.ConversionSyntax'>]"
  | _ => .error "[<class 'decimal.ConversionSyntax'>]"

/-- `Decimal(str(x))` for a runtime value `x`: exact for ints and
Decimals (the decimal string printed by `str` parses back to the same
value), a parse for strings, and a conversion error for everything else
(`str(True)`, `str(None)`, dates and containers do not parse as decimal
literals). -/
def pyDecimal : Value → Except String ℚ
  | .vInt n => .ok (n : ℚ)
  | .vDec q => .ok q
  | .vStr s => parseDec s
  | _ => .error "[<class 'decimal.ConversionSyntax'>]"

/-- `float(x)`: numeric for bool/int/Decimal, a decimal-literal parse for
strings, a `TypeError`/`ValueError` otherwise. The float is modelled as
the exact rational it was converted from; the engine only uses `float`
for format checking and for the advisory explanation text. -/
def pyFloat : Value → Except String ℚ
  | .vBool b => .ok (if b then 1 else 0)
  | .vInt n => .ok (n : ℚ)
  | .vDec q => .ok q
  | .vStr s => parseDec s
  | .vNull => .error "float() argument must be a string or a real number, not 'NoneType'"
  | _ => .error "float() argument must be a string or a real number"

/-- `", ".join(...)` over already-rendered pieces. -/
def joinComma : List String → String
  | [] => ""
  | [s] => s
  | s :: rest => s ++ ", " ++ joinComma rest

/-- Two-digit zero-padded rendering. -/
def pad2 (n : Nat) : String :=
  if n < 10 then "0" ++ toString n else toString n

/-- Rendering of a modelled datetime key back to ISO-like text (used only
inside human-readable strings). -/
def dateStr (t : Int) : String :=
  let u := t.toNat
  let secs := u % 100000
  let ymd := u / 100000
  toString (ymd / 10000) ++ "-" ++ pad2 (ymd % 10000 / 100) ++ "-" ++ pad2 (ymd % 100) ++
    " " ++ pad2 (secs / 3600) ++ ":" ++ pad2 (secs % 3600 / 60) ++ ":" ++ pad2 (secs % 60)

mutual

/-- `repr(x)`, fueled (the wrapper below supplies sufficient fuel).
Decimal values print through the rational printer: the trailing-zero
information that a real `Decimal` keeps is not representable in `ℚ`, and
no claim inspects such text. -/
def pyReprF : Nat → Value → String
  | _, .vNull => "None"
  | _, .vBool b => if b then "True" else "False"
  | _, .vInt n => toString n
  | _, .vDec q => "Decimal('" ++ toString q ++ "')"
  | _, .vStr s => "'" ++ s ++ "'"
  | _, .vDate t => "datetime.datetime(" ++ dateStr t ++ ")"
  | f + 1, .vList l => "[" ++ pyReprL f l ++ "]"
  | f + 1, .vDict d => "\x7b" ++ pyReprD f d ++ "\x7d"
  | 0, _ => ""

/-- Comma-joined reprs of list elements, fueled. -/
def pyReprL : Nat → VList → String
  | _, .nil => ""
  | f, .cons x .nil => pyReprF f x
  | f, .cons x xs => pyReprF f x ++ ", " ++ pyReprL f xs

/-- Comma-joined reprs of dict bindings, fueled. -/
def pyReprD : Nat → VDict → String
  | _, .nil => ""
  | f, .cons k v .nil => "'" ++ k ++ "': " ++ pyReprF f v
  | f, .cons k v xs => "'" ++ k ++ "': " ++ pyReprF f v ++ ", " ++ pyReprD f xs

end

/-- `repr(x)`. -/
def pyRepr (v : Value) : String :=
  pyReprF (vsize v) v

/-- `str(x)` (as used by f-string interpolation). -/
def pyStr : Value → String
  | .vStr s => s
  | v => pyRepr v

/-- Calendar helper for ISO date validation. -/
def daysInMonth (y m : Nat) : Nat :=
  if m = 2 then
    if y % 4 = 0 ∧ (y % 100 ≠ 0 ∨ y % 400 = 0) then 29 else 28
  else if m = 4 ∨ m = 6 ∨ m = 9 ∨ m = 11 then 30
  else 31

/-- Numeric value of a two-digit pair. -/
def d2 (a b : Char) : Nat :=
  10 * (a.toNat - '0'.toNat) + (b.toNat - '0'.toNat)

/-- Time-of-day suffix of an ISO string (`HH:MM` or `HH:MM:SS`), in
seconds. -/
def parseIsoTime (cs : List Char) : Except String Nat :=
  match cs with
  | [h1, h2, ':', m1, m2] =>
    if h1.isDigit ∧ h2.isDigit ∧ m1.isDigit ∧ m2.isDigit ∧ d2 h1 h2 < 24 ∧ d2 m1 m2 < 60 then
      .ok (d2 h1 h2 * 3600 + d2 m1 m2 * 60)
    else .error "Invalid isoformat string"
  | [h1, h2, ':', m1, m2, ':', s1, s2] =>
    if h1.isDigit ∧ h2.isDigit ∧ m1.isDigit ∧ m2.isDigit ∧ s1.isDigit ∧ s2.isDigit ∧
        d2 h1 h2 < 24 ∧ d2 m1 m2 < 60 ∧ d2 s1 s2 < 60 then
      .ok (d2 h1 h2 * 3600 + d2 m1 m2 * 60 + d2 s1 s2)
    else .error "Invalid isoformat string"
  | _ => .error "Invalid isoformat string"

/-- `datetime.fromisoformat` on a string, producing the integer ordering
key of the parsed datetime (`date-key * 100000 + second-of-day`, which
orders exactly like the datetime). Accepts `YYYY-MM-DD`, optionally
followed by `T` or a space and `HH:MM[:SS]`; fractional seconds, time
zones and the other 3.11+ extensions are outside the model. -/
def parseIso (s : String) : Except String Int :=
  match s.data with
  | y1 :: y2 :: y3 :: y4 :: '-' :: m1 :: m2 :: '-' :: dd1 :: dd2 :: rest =>
    if y1.isDigit ∧ y2.isDigit ∧ y3.isDigit ∧ y4.isDigit ∧ m1.isDigit ∧ m2.isDigit ∧
        dd1.isDigit ∧ dd2.isDigit then
      let y := d2 y1 y2 * 100 + d2 y3 y4
      let m := d2 m1 m2
      let d := d2 dd1 dd2
      if 1 ≤ m ∧ m ≤ 12 ∧ 1 ≤ d ∧ d ≤ daysInMonth y m then
        let base : Int := ((y * 10000 + m * 100 + d) * 100000 : Nat)
        match rest with
        | [] => .ok base
        | 'T' :: t => (parseIsoTime t).map (fun secs => base + secs)
        | ' ' :: t => (parseIsoTime t).map (fun secs => base + secs)
        | _ => .error ("Invalid isoformat string: '" ++ s ++ "'")
      else .error ("day is out of range for month")
    else .error ("Invalid isoformat string: '" ++ s ++ "'")
  | _ => .error ("Invalid isoformat string: '" ++ s ++ "'")

/-- Lexicographic comparison of character lists by code point: the model
of Python string `<`. -/
def lexLt : List Char → List Char → Bool
  | [], [] => false
  | [], _ :: _ => true
  | _ :: _, [] => false
  | a :: as, b :: bs => if a < b then true else if b < a then false else lexLt as bs

/-- Does `needle` occur at the head of `hay`? -/
def headMatch : List Char → List Char → Bool
  | [], _ => true
  | _ :: _, [] => false
  | a :: as, b :: bs => a = b && headMatch as bs

/-- Python substring containment (`needle in hay`). -/
def substrIn (needle : List Char) : List Char → Bool
  | [] => headMatch needle []
  | c :: t => headMatch needle (c :: t) || substrIn needle t

/-- Abstract syntax of the regular-expression core used to model the
`re` module: literals, the dot, character classes, grouping, alternation
and the `*`/`+`/`?` quantifiers (the latter two are desugared at parse
time). Anchors, backreferences and counted repeats are outside the
model. -/
inductive Re : Type where
  | emp : Re
  | eps : Re
  | chr (c : Char) : Re
  | anyc : Re
  | cls (neg : Bool) (items : List (Char × Char)) : Re
  | alt (a b : Re) : Re
  | cat (a b : Re) : Re
  | star (a : Re) : Re
  deriving DecidableEq

/-- Body of a character class after the opening bracket (and after an
optional leading `^`/literal `]`): a list of ranges, or the
`unterminated character set` error `re.compile` reports when the closing
bracket is missing. -/
def clsItems : List Char → Except String (List (Char × Char) × List Char)
  | [] => .error "unterminated character set"
  | ']' :: rest => .ok ([], rest)
  | '\\' :: c :: rest => do
    let (is, r) ← clsItems rest
    .ok ((c, c) :: is, r)
  | a :: '-' :: b :: rest =>
    if b = ']' then .ok ([(a, a), ('-', '-')], rest)
    else do
      let (is, r) ← clsItems rest
      .ok ((a, b) :: is, r)
  | a :: rest => do
    let (is, r) ← clsItems rest
    .ok ((a, a) :: is, r)

/-- A bracketed character class, handling the optional negation and the
literal leading `]`. -/
def parseCls (cs : List Char) : Except String (Re × List Char) :=
  let (neg, cs2) : (Bool × List Char) :=
    match cs with
    | '^' :: r => (true, r)
    | _ => (false, cs)
  match cs2 with
  | ']' :: rest => do
    let (is, r) ← clsItems rest
    .ok (.cls neg ((']', ']') :: is), r)
  | _ => do
    let (is, r) ← clsItems cs2
    .ok (.cls neg is, r)

mutual

/-- Alternation level of the pattern grammar, fueled (the wrapper
`reCompile` supplies ample fuel; every recursive descent step consumes
fuel and input). -/
def parseAlt : Nat → List Char → Except String (Re × List Char)
  | 0, _ => .error "internal error"
  | f + 1, cs => do
    let (r, rest) ← parseCat f cs
    match rest with
    | '|' :: rest2 => do
      let (r2, rest3) ← parseAlt f rest2
      .ok (.alt r r2, rest3)
    | _ => .ok (r, rest)

/-- Concatenation level: a run of quantified atoms up to `|`, `)` or the
end of the pattern. -/
def parseCat : Nat → List Char → Except String (Re × List Char)
  | 0, _ => .error "internal error"
  | f + 1, cs =>
    match cs with
    | [] => .ok (.eps, [])
    | '|' :: _ => .ok (.eps, cs)
    | ')' :: _ => .ok (.eps, cs)
    | _ => do
      let (r1, rest) ← parseItem f cs
      let (r2, rest2) ← parseCat f rest
      .ok (.cat r1 r2, rest2)

/-- One atom with an optional `*`/`+`/`?` quantifier. -/
def parseItem : Nat → List Char → Except String (Re × List Char)
  | 0, _ => .error "internal error"
  | f + 1, cs => do
    let (a, rest) ← parseAtom f cs
    match rest with
    | '*' :: r2 => .ok (.star a, r2)
    | '+' :: r2 => .ok (.cat a (.star a), r2)
    | '?' :: r2 => .ok (.alt a .eps, r2)
    | _ => .ok (a, rest)

/-- One atom: group, class, escape, dot or literal; a leading quantifier
is the `nothing to repeat` compile error. -/
def parseAtom : Nat → List Char → Except String (Re × List Char)
  | 0, _ => .error "internal error"
  | f + 1, cs =>
    match cs with
    | [] => .error "internal error"
    | '(' :: rest => do
      let (r, rest2) ← parseAlt f rest
      match rest2 with
      | ')' :: rest3 => .ok (r, rest3)
      | _ => .error "missing ), unterminated subpattern"
    | '[' :: rest => parseCls rest
    | '\\' :: c :: rest => .ok (.chr c, rest)
    | ['\\'] => .error "bad escape (end of pattern)"
    | '.' :: rest => .ok (.anyc, rest)
    | '*' :: _ => .error "nothing to repeat"
    | '+' :: _ => .error "nothing to repeat"
    | '?' :: _ => .error "nothing to repeat"
    | c :: rest => .ok (.chr c, rest)

end

/-- `re.compile(pattern)`: parse the whole pattern or fail with the
compile error message. -/
def reCompile (p : String) : Except String Re := do
  let (r, rest) ← parseAlt (8 * p.length + 8) p.data
  match rest with
  | [] => .ok r
  | ')' :: _ => .error "unbalanced parenthesis"
  | _ => .error "internal error"

/-- Case-insensitive character equality (`re.IGNORECASE` folding). -/
def ciEq (a b : Char) : Bool :=
  a = b || a.toLower = b.toLower

/-- Does character `c` fall in one of the class ranges, up to case
folding? -/
def inCls (items : List (Char × Char)) (c : Char) : Bool :=
  items.any (fun p =>
    (p.1 ≤ c ∧ c ≤ p.2) ∨ (p.1 ≤ c.toLower ∧ c.toLower ≤ p.2) ∨
      (p.1 ≤ c.toUpper ∧ c.toUpper ≤ p.2))

/-- Does the empty string match? -/
def nullable : Re → Bool
  | .emp => false
  | .eps => true
  | .chr _ => false
  | .anyc => false
  | .cls _ _ => false
  | .alt a b => nullable a || nullable b
  | .cat a b => nullable a && nullable b
  | .star _ => true

/-- Brzozowski derivative with respect to one input character, with
`re.IGNORECASE` character comparison; the dot does not match a newline
(no `DOTALL`). -/
def deriv (c : Char) : Re → Re
  | .emp => .emp
  | .eps => .emp
  | .chr d => if ciEq c d then .eps else .emp
  | .anyc => if c = '\n' then .emp else .eps
  | .cls neg items => if (if neg then !inCls items c else inCls items c) then .eps else .emp
  | .alt a b => .alt (deriv c a) (deriv c b)
  | .cat a b =>
    if nullable a then .alt (.cat (deriv c a) b) (deriv c b)
    else .cat (deriv c a) b
  | .star a => .cat (deriv c a) (.star a)

/-- Does some prefix of the input match the expression? -/
def matchPfx (r : Re) : List Char → Bool
  | [] => nullable r
  | c :: rest => nullable r || matchPfx (deriv c r) rest

/-- `re.search`: does the expression match at some position of the
input? -/
def reSearch (r : Re) : List Char → Bool
  | [] => matchPfx r []
  | c :: rest => matchPfx r (c :: rest) || reSearch r rest

/-- Python `str.lower()` (ASCII folding; the engine only lowercases
merchant text and rule payloads). -/
def pyLower (s : String) : String :=
  ⟨s.data.map Char.toLower⟩

/-- `x.lower()` on a runtime value: strings lowercase, everything else is
an `AttributeError`. -/
def asStrLower : Value → Except String String
  | .vStr s => .ok (pyLower s)
  | _ => .error "object has no attribute 'lower'"

/-- `ConditionEvaluator.SUPPORTED_OPERATORS`. The source stores these in
a set literal; the model keeps the literal order for the message join
(set iteration order is arbitrary in Python, so no theorem relies on the
order of the listing). -/
def SUPPORTED_OPERATORS : List String :=
  ["any", "all", "merchant_contains", "merchant_regex",
   "amount_gt", "amount_gte", "amount_lt", "amount_lte", "amount_eq",
   "is_recurring", "date_range", "category_id_eq"]

/-- The `datetime.fromisoformat` probe `validate_condition` runs on the
`start`/`end` payload of a `date_range` condition: any `ValueError` or
`TypeError` becomes the field-specific validation message. -/
def isoFieldCheck (v : Value) (fieldName : String) : Except String Unit :=
  match v with
  | .vStr s =>
    match parseIso s with
    | .ok _ => .ok ()
    | .error _ => .error ("'" ++ fieldName ++ "' must be ISO format date/datetime")
  | _ => .error ("'" ++ fieldName ++ "' must be ISO format date/datetime")

mutual

/-- `ConditionEvaluator.validate_condition`, fueled for the recursion
into `any`/`all` children (the wrapper `validateCondition` supplies
sufficient fuel, so the fuel-exhaustion branch is unreachable). -/
def validateFuel : Nat → Value → Except String Unit
  | 0, _ => .error "maximum recursion depth exceeded"
  | f + 1, cond =>
    match cond with
    | .vDict c =>
      if hasKey c "operator" = false then .error "Condition must have 'operator' field"
      else
        match dGetD c "operator" .vNull with
        | .vList _ => .error "unhashable type: 'list'"
        | .vDict _ => .error "unhashable type: 'dict'"
        | .vStr s =>
          if SUPPORTED_OPERATORS.contains s = false then
            .error ("Unknown operator: " ++ s ++ ". Supported: " ++
              joinComma SUPPORTED_OPERATORS)
          else if s = "any" ∨ s = "all" then
            if hasKey c "conditions" = false then
              .error ("'" ++ s ++ "' operator requires 'conditions' array")
            else
              match dGetD c "conditions" .vNull with
              | .vList .nil => .error ("'" ++ s ++ "' conditions cannot be empty")
              | .vList l => validateListFuel f l
              | _ => .error ("'" ++ s ++ "' conditions must be a list")
          else if s = "merchant_contains" then
            if hasKey c "value" = false then
              .error "'merchant_contains' requires 'value' field"
            else
              match dGetD c "value" .vNull with
              | .vStr _ => .ok ()
              | _ => .error "'merchant_contains' value must be a string"
          else if s = "merchant_regex" then
            if hasKey c "value" = false then
              .error "'merchant_regex' requires 'value' field"
            else
              match dGetD c "value" .vNull with
              | .vStr pat =>
                match reCompile pat with
                | .ok _ => .ok ()
                | .error e => .error ("Invalid regex pattern: " ++ e)
              | _ => .error "'merchant_regex' value must be a string"
          else if s.startsWith "amount_" then
            if hasKey c "value" = false then
              .error ("'" ++ s ++ "' requires 'value' field")
            else
              match pyFloat (dGetD c "value" .vNull) with
              | .ok _ => .ok ()
              | .error _ => .error ("'" ++ s ++ "' value must be numeric")
          else if s = "is_recurring" then
            if hasKey c "value" = false then
              .error "'is_recurring' requires 'value' field"
            else
              match dGetD c "value" .vNull with
              | .vBool _ => .ok ()
              | _ => .error "'is_recurring' value must be boolean"
          else if s = "date_range" then
            if hasKey c "start" = false ∨ hasKey c "end" = false then
              .error "'date_range' requires 'start' and 'end' fields"
            else do
              isoFieldCheck (dGetD c "start" .vNull) "start"
              isoFieldCheck (dGetD c "end" .vNull) "end"
          else if s = "category_id_eq" then
            if hasKey c "value" = false then
              .error "'category_id_eq' requires 'value' field"
            else
              match dGetD c "value" .vNull with
              | .vInt _ => .ok ()
              | .vBool _ => .ok ()
              | _ => .error "'category_id_eq' value must be an integer"
          else .ok ()
        | other =>
          .error ("Unknown operator: " ++ pyStr other ++ ". Supported: " ++
            joinComma SUPPORTED_OPERATORS)
    | _ => .error "Condition must be a dictionary"

/-- Recursive validation of the children of an `any`/`all` combinator;
Python raises at the first invalid child. -/
def validateListFuel : Nat → VList → Except String Unit
  | _, .nil => .ok ()
  | 0, .cons _ _ => .error "maximum recursion depth exceeded"
  | f + 1, .cons c rest => do
    validateFuel f c
    validateListFuel f rest

end

/-- `ConditionEvaluator.validate_condition` (fuel instantiated: the
recursion descends strictly into subterms, so `vsize` fuel never runs
out). -/
def validateCondition (c : Value) : Except String Unit :=
  validateFuel (vsize c) c

mutual

/-- `ConditionEvaluator.evaluate`, fueled like `validateFuel`. Raised
exceptions are the `.error` results; the comparison branches mirror the
source line by line. -/
def evalFuel : Nat → Value → Dict → Except String Bool
  | 0, _, _ => .error "maximum recursion depth exceeded"
  | f + 1, cond, tx =>
    match cond with
    | .vDict c =>
      let op := dGetD c "operator" .vNull
      if op = .vStr "any" then
        match dGetD c "conditions" (.vList .nil) with
        | .vList l => anyFuel f l tx
        | _ => .error "object is not iterable"
      else if op = .vStr "all" then
        match dGetD c "conditions" (.vList .nil) with
        | .vList l => allFuel f l tx
        | _ => .error "object is not iterable"
      else if op = .vStr "merchant_contains" then do
        let m ← asStrLower (dGetD tx "description" (.vStr ""))
        let v ← asStrLower (dGetD c "value" (.vStr ""))
        .ok (substrIn v.data m.data)
      else if op = .vStr "merchant_regex" then
        match dGetD c "value" (.vStr "") with
        | .vStr pat =>
          match reCompile pat with
          | .error _ => .ok false
          | .ok r =>
            match dGetD tx "description" (.vStr "") with
            | .vStr m => .ok (reSearch r m.data)
            | _ => .error "expected string or bytes-like object"
        | _ => .error "first argument must be string or compiled pattern"
      else if op = .vStr "amount_gt" then do
        let a ← pyDecimal (dGetD tx "amount" (.vInt 0))
        let v ← pyDecimal (dGetD c "value" (.vInt 0))
        .ok (decide (a > v))
      else if op = .vStr "amount_gte" then do
        let a ← pyDecimal (dGetD tx "amount" (.vInt 0))
        let v ← pyDecimal (dGetD c "value" (.vInt 0))
        .ok (decide (a ≥ v))
      else if op = .vStr "amount_lt" then do
        let a ← pyDecimal (dGetD tx "amount" (.vInt 0))
        let v ← pyDecimal (dGetD c "value" (.vInt 0))
        .ok (decide (a < v))
      else if op = .vStr "amount_lte" then do
        let a ← pyDecimal (dGetD tx "amount" (.vInt 0))
        let v ← pyDecimal (dGetD c "value" (.vInt 0))
        .ok (decide (a ≤ v))
      else if op = .vStr "amount_eq" then do
        let a ← pyDecimal (dGetD tx "amount" (.vInt 0))
        let v ← pyDecimal (dGetD c "value" (.vInt 0))
        .ok (decide (a = v))
      else if op = .vStr "is_recurring" then
        let expected := dGetD c "value" (.vBool false)
        let actual := dGetD tx "is_recurring" (.vBool false)
        .ok (pyEq actual expected)
      else if op = .vStr "date_range" then do
        let txd ← match dGetD tx "transaction_date" .vNull with
          | .vStr s => (parseIso s).map (fun t => Value.vDate t)
          | v => .ok v
        let st ← match dGetD c "start" (.vStr "") with
          | .vStr s => parseIso s
          | _ => .error "fromisoformat: argument must be str"
        let en ← match dGetD c "end" (.vStr "") with
          | .vStr s => parseIso s
          | _ => .error "fromisoformat: argument must be str"
        match txd with
        | .vDate t => .ok (decide (st ≤ t) && decide (t ≤ en))
        | _ => .error "'<=' not supported between instances of 'datetime.datetime' and the transaction date"
      else if op = .vStr "category_id_eq" then
        .ok (pyEq (dGetD tx "category_id" .vNull) (dGetD c "value" .vNull))
      else .ok false
    | _ => .error "object has no attribute 'get'"

/-- `any(evaluate(c, tx) for c in conditions)`: short-circuits at the
first true child; a child exception before that propagates. -/
def anyFuel : Nat → VList → Dict → Except String Bool
  | _, .nil, _ => .ok false
  | 0, .cons _ _, _ => .error "maximum recursion depth exceeded"
  | f + 1, .cons c rest, tx => do
    let b ← evalFuel f c tx
    if b then .ok true else anyFuel f rest tx

/-- `all(evaluate(c, tx) for c in conditions)`. -/
def allFuel : Nat → VList → Dict → Except String Bool
  | _, .nil, _ => .ok true
  | 0, .cons _ _, _ => .error "maximum recursion depth exceeded"
  | f + 1, .cons c rest, tx => do
    let b ← evalFuel f c tx
    if b then allFuel f rest tx else .ok false

end

/-- `ConditionEvaluator.evaluate` (fuel instantiated as for
`validateCondition`). -/
def evalCond (c : Value) (tx : Dict) : Except String Bool :=
  evalFuel (vsize c) c tx

/-- Can the value go into a Python set? Lists and dicts are unhashable,
everything else the engine handles hashes fine. -/
def hashable : Value → Bool
  | .vList _ => false
  | .vDict _ => false
  | _ => true

/-- The strings of a value list, or a `TypeError` at the first non-string
element (the failure mode of `", ".join` on a list). -/
def collectStrs : VList → Except String (List String)
  | .nil => .ok []
  | .cons (.vStr s) rest => (collectStrs rest).map (fun ss => s :: ss)
  | .cons _ _ => .error "sequence item: expected str instance"

/-- `", ".join(x)`: a list must contain only strings; a string iterates
its characters; a dict iterates its keys; anything else is a
`TypeError`. -/
def pyJoinV : Value → Except String String
  | .vList l => (collectStrs l).map joinComma
  | .vStr s => .ok (joinComma (s.data.map (fun c => String.mk [c])))
  | .vDict d => .ok (joinComma d.keys)
  | _ => .error "can only join an iterable"

/-- Banker's rounding to an integer (Python `round`/format rounding on
exact values). -/
def roundHalfEven (q : ℚ) : Int :=
  let fl := ⌊q⌋
  let fr := q - fl
  if fr < 1 / 2 then fl
  else if 1 / 2 < fr then fl + 1
  else if fl % 2 = 0 then fl else fl + 1

/-- The `f"{x:+.1f}"` format used for `recommend_budget_change`: signed,
one decimal place. Modelled by exact half-even rounding of the rational
the float was converted from (binary floating-point double rounding is
outside the model; no claim inspects this text). -/
def fmtSigned1 (q : ℚ) : String :=
  let n := roundHalfEven (q * 10)
  let sgn := if n < 0 then "-" else "+"
  let a := n.natAbs
  sgn ++ toString (a / 10) ++ "." ++ toString (a % 10)

/-- `ActionExecutor.SUPPORTED_ACTIONS` (modelling note as for the
operator set). -/
def SUPPORTED_ACTIONS : List String :=
  ["set_category", "set_tags", "recommend_budget_change",
   "recommend_goal", "stop_processing"]

/-- The per-tag type check of `validate_action` for `set_tags`. -/
def allStrTags : VList → Except String Unit
  | .nil => .ok ()
  | .cons (.vStr _) rest => allStrTags rest
  | .cons _ _ => .error "Each tag must be a string"

/-- `ActionExecutor.validate_action`. -/
def validateAction (action : Value) : Except String Unit :=
  match action with
  | .vDict a =>
    if hasKey a "type" = false then .error "Action must have 'type' field"
    else
      match dGetD a "type" .vNull with
      | .vList _ => .error "unhashable type: 'list'"
      | .vDict _ => .error "unhashable type: 'dict'"
      | .vStr s =>
        if SUPPORTED_ACTIONS.contains s = false then
          .error ("Unknown action type: " ++ s ++ ". Supported: " ++
            joinComma SUPPORTED_ACTIONS)
        else if s = "set_category" then
          if hasKey a "category_id" = false then
            .error "'set_category' action requires 'category_id'"
          else
            match dGetD a "category_id" .vNull with
            | .vInt _ => .ok ()
            | .vBool _ => .ok ()
            | _ => .error "'set_category' category_id must be an integer"
        else if s = "set_tags" then
          if hasKey a "tags" = false then .error "'set_tags' action requires 'tags'"
          else
            match dGetD a "tags" .vNull with
            | .vList l => allStrTags l
            | _ => .error "'set_tags' tags must be a list"
        else if s = "recommend_budget_change" then
          if hasKey a "change_percent" = false then
            .error "'recommend_budget_change' requires 'change_percent'"
          else
            match pyFloat (dGetD a "change_percent" .vNull) with
            | .ok _ => .ok ()
            | .error _ => .error "'recommend_budget_change' change_percent must be numeric"
        else if s = "recommend_goal" then
          if hasKey a "goal_name" = false ∨ hasKey a "amount" = false then
            .error "'recommend_goal' requires 'goal_name' and 'amount'"
          else
            match dGetD a "goal_name" .vNull with
            | .vStr _ =>
              match pyFloat (dGetD a "amount" .vNull) with
              | .ok _ => .ok ()
              | .error _ => .error "'recommend_goal' amount must be numeric"
            | _ => .error "'recommend_goal' goal_name must be a string"
        else .ok ()
      | other =>
        .error ("Unknown action type: " ++ pyStr other ++ ". Supported: " ++
          joinComma SUPPORTED_ACTIONS)
  | _ => .error "Action must be a dictionary"

/-- `ActionExecutor.execute`: apply one action to a working copy of the
transaction, returning the copy and the explanation text. In this pure
model `transaction.copy()` is value copying; the heap model further
below makes the copying explicit for the no-mutation claim. The
`list(set(existing_tags + tags))` of `set_tags` is modelled by
`List.dedup` on the concatenation: a Python set of hashable tags holds
exactly the distinct elements, in an implementation-defined order the
model fixes structurally. -/
def executeAct (action : Value) (transaction : Dict) : Except String (Dict × String) :=
  match action with
  | .vDict a =>
    let tx := transaction
    let actionType := dGetD a "type" .vNull
    if actionType = .vStr "set_category" then
      let categoryId := dGetD a "category_id" .vNull
      .ok (dSet tx "category_id" categoryId, "Set category to " ++ pyStr categoryId)
    else if actionType = .vStr "set_tags" then
      let tags := dGetD a "tags" (.vList .nil)
      match dGetD tx "tags" (.vList .nil) with
      | .vList ex =>
        match tags with
        | .vList ts =>
          let combined := ex.toList ++ ts.toList
          if combined.all hashable then do
            let expl ← pyJoinV tags
            .ok (dSet tx "tags" (.vList (vl combined.dedup)), "Added tags: " ++ expl)
          else .error "unhashable type: 'list'"
        | _ => .error "can only concatenate list"
      | _ => do
        let expl ← pyJoinV tags
        .ok (dSet tx "tags" tags, "Added tags: " ++ expl)
    else if actionType = .vStr "recommend_budget_change" then do
      let cp ← pyFloat (dGetD a "change_percent" (.vInt 0))
      .ok (tx, "Recommended budget change: " ++ fmtSigned1 cp ++ "%")
    else if actionType = .vStr "recommend_goal" then
      let goalName := dGetD a "goal_name" .vNull
      let amount := dGetD a "amount" .vNull
      .ok (tx, "Recommended goal '" ++ pyStr goalName ++ "' with amount $" ++ pyStr amount)
    else if actionType = .vStr "stop_processing" then
      .ok (dSet tx "_stop_processing" (.vBool true), "Stopped further rule processing")
    else .ok (tx, "")
  | _ => .error "object has no attribute 'get'"

/-- `int(x)` as used by `validate_rule` for the `priority` field. -/
def pyInt : Value → Except String Int
  | .vInt n => .ok n
  | .vBool b => .ok (if b then 1 else 0)
  | .vDec q => .ok (if 0 ≤ q then ⌊q⌋ else -⌊-q⌋)
  | .vStr s =>
    match s.data with
    | [] => .error "invalid literal for int()"
    | cs =>
      let (sgn, ds) : (Int × List Char) :=
        match cs with
        | '-' :: r => (-1, r)
        | '+' :: r => (1, r)
        | _ => (1, cs)
      if ds ≠ [] ∧ ds.all Char.isDigit then .ok (sgn * (natOfDigits ds : Int))
      else .error "invalid literal for int()"
  | _ => .error "int() argument must be a string or a number"

/-- `RuleEngine.validate_rule`. -/
def validateRule (ruleDict : Value) : Except String Unit :=
  match ruleDict with
  | .vDict r =>
    if hasKey r "name" = false then .error "Rule must have 'name' field"
    else if hasKey r "condition" = false then .error "Rule must have 'condition' field"
    else if hasKey r "action" = false then .error "Rule must have 'action' field"
    else do
      validateCondition (dGetD r "condition" .vNull)
      validateAction (dGetD r "action" .vNull)
      if hasKey r "priority" then
        match pyInt (dGetD r "priority" .vNull) with
        | .ok _ => .ok ()
        | .error _ => .error "'priority' must be an integer"
      else .ok ()
  | _ => .error "Rule must be a dictionary"

/-- The sort key of `evaluate_transaction`: `r.get('priority', 0)`. -/
def keyOf (r : Dict) : Value :=
  dGetD r "priority" (.vInt 0)

/-- The classes of values Python can mutually order with `<`: the
numeric tower (bool/int/Decimal), strings, datetimes. -/
inductive KClass : Type where
  | num : KClass
  | str : KClass
  | date : KClass
  deriving DecidableEq

/-- Comparison class of a sort key, `none` when the value supports no
ordering (None, lists-as-keys and dicts are modelled as unordered; a
list key would actually compare elementwise in Python, a corner no rule
set reaches). -/
def keyClass : Value → Option KClass
  | .vBool _ => some .num
  | .vInt _ => some .num
  | .vDec _ => some .num
  | .vStr _ => some .str
  | .vDate _ => some .date
  | _ => none

/-- Python `<` on two keys of the same comparison class (cross-class
pairs make the sort raise instead, see `sortRulesE`). -/
def valLt (a b : Value) : Bool :=
  match toQ a, toQ b with
  | some x, some y => decide (x < y)
  | _, _ =>
    match a, b with
    | .vStr s, .vStr t => lexLt s.data t.data
    | .vDate x, .vDate y => decide (x < y)
    | _, _ => false

/-- One step of a stable descending insertion sort: insert `r` after
every element whose key is not below `r`'s, so equal keys keep their
relative order. -/
def insertRule (r : Dict) : List Dict → List Dict
  | [] => [r]
  | x :: xs =>
    if valLt (keyOf x) (keyOf r) then r :: x :: xs else x :: insertRule r xs

/-- Stable sort by `priority` descending, the model of
`sorted(rules, key=..., reverse=True)` (Python's Timsort is stable and
`reverse=True` preserves the order of equal keys). -/
def sortRules (l : List Dict) : List Dict :=
  l.foldl (fun acc r => insertRule r acc) []

/-- The sorting step of `evaluate_transaction`, including its failure
mode: `sorted` raises `TypeError` when it compares keys that do not
support `<` between them. With at most one rule nothing is compared;
otherwise the model fails exactly when the key classes are mixed or some
key is unorderable, which is when Timsort hits such a comparison. -/
def sortRulesE (rules : List Dict) : Except String (List Dict) :=
  match rules with
  | [] => .ok []
  | [r] => .ok [r]
  | _ =>
    match rules.map (fun r => keyClass (keyOf r)) with
    | [] => .ok rules
    | c :: cs =>
      if c.isSome ∧ cs.all (fun x => x = c) then .ok (sortRules rules)
      else .error "'<' not supported between instances"

/-- Trace entry recorded for a rule that matched and was applied. -/
def mkEntry (r : Dict) (expl : String) : Dict :=
  vd [("rule_id", dGetD r "id" .vNull), ("name", dGetD r "name" .vNull),
      ("explanation", .vStr expl)]

/-- Trace entry recorded for a rule whose evaluation or execution raised:
the message behind the `Error: ` marker plus the `error` flag. -/
def mkErrEntry (r : Dict) (msg : String) : Dict :=
  vd [("rule_id", dGetD r "id" .vNull), ("name", dGetD r "name" .vNull),
      ("explanation", .vStr ("Error: " ++ msg)), ("error", .vBool true)]

/-- The body of the engine's per-rule `try`: look up the condition
(`rule['condition']` may raise `KeyError`), evaluate it, and on a match
look up and execute the action; `none` means the condition did not
match. -/
def tryBody (r : Dict) (tx : Dict) : Except String (Option (Dict × String)) := do
  let c ← getItem r "condition"
  let b ← evalCond c tx
  if b then do
    let a ← getItem r "action"
    let res ← executeAct a tx
    .ok (some res)
  else .ok none

/-- The rule walk of `evaluate_transaction` over the already-sorted rule
list: skip inactive rules, catch per-rule errors into error trace
entries, thread the working copy, and stop (after removing the private
flag) when an action set the stop-processing flag. -/
def runRules (tx : Dict) : List Dict → Dict × List Dict
  | [] => (tx, [])
  | r :: rs =>
    if truthy (dGetD r "is_active" (.vBool true)) = false then runRules tx rs
    else
      match tryBody r tx with
      | .error msg =>
        let (txf, tr) := runRules tx rs
        (txf, mkErrEntry r msg :: tr)
      | .ok none => runRules tx rs
      | .ok (some (tx2, expl)) =>
        if truthy (dGetD tx2 "_stop_processing" .vNull) then
          (eraseKey tx2 "_stop_processing", [mkEntry r expl])
        else
          let (txf, tr) := runRules tx2 rs
          (txf, mkEntry r expl :: tr)

/-- `RuleEngine.evaluate_transaction`: sort (which may raise, before the
per-rule recovery starts), then walk. The working copy starts as
`transaction.copy()`, which in this pure model is the value itself. -/
def evaluateTransaction (transaction : Dict) (rules : List Dict) :
    Except String (Dict × List Dict) := do
  let sortedRules ← sortRulesE rules
  .ok (runRules transaction sortedRules)

/-! ### Heap model

Python dicts are mutable objects; `transaction.copy()` and `tx[k] = v`
act on a heap of dict objects. To state that the engine never mutates
the caller's dict, the executor and engine are replayed below against an
explicit heap: references are allocated fresh by `copy`, and every write
goes through `hset` on a reference the call itself allocated. -/

/-- A heap of dict objects, addressed by numeric references. -/
abbrev Heap : Type := List (Nat × Dict)

/-- Largest allocated reference (0 when empty). -/
def maxId (h : Heap) : Nat :=
  h.foldr (fun p m => max p.1 m) 0

/-- Dereference. -/
def hget : Heap → Nat → Option Dict
  | [], _ => none
  | (r1, d1) :: rest, r => if r1 = r then some d1 else hget rest r

/-- Dereference with the empty dict as fallback (never hit on the
references the engine actually uses). -/
def hgetD (h : Heap) (r : Nat) : Dict :=
  (hget h r).getD .nil

/-- In-place update of the object at `r` (a no-op for dangling refs). -/
def hset (h : Heap) (r : Nat) (d : Dict) : Heap :=
  h.map (fun p => if p.1 = r then (r, d) else p)

/-- `d.copy()`: allocate a fresh reference to the given dict value. -/
def halloc (h : Heap) (d : Dict) : Nat × Heap :=
  (maxId h + 1, (maxId h + 1, d) :: h)

/-- `ActionExecutor.execute` against the heap: copy the input dict to a
fresh object, apply the pure transform (`executeAct` computes exactly
the writes the branches perform), and store the result at the fresh
reference only. An exception leaves every pre-existing object as it
was. -/
def executeActH (action : Value) (txr : Nat) (h : Heap) :
    Except String (Nat × String × Heap) :=
  let (r2, h2) := halloc h (hgetD h txr)
  match executeAct action (hgetD h2 r2) with
  | .error e => .error e
  | .ok (d2, expl) => .ok (r2, expl, hset h2 r2 d2)

/-- Per-rule `try` body against the heap (conditions only read). -/
def tryBodyH (r : Dict) (mr : Nat) (h : Heap) :
    Except String (Option (Nat × String × Heap)) := do
  let c ← getItem r "condition"
  let b ← evalCond c (hgetD h mr)
  if b then do
    let a ← getItem r "action"
    let res ← executeActH a mr h
    .ok (some res)
  else .ok none

/-- The rule walk against the heap: the working-copy reference moves to
the executor's fresh copy after each applied action, and the
stop-processing `pop` writes to that same working reference. -/
def runRulesH (mr : Nat) (h : Heap) : List Dict → Nat × List Dict × Heap
  | [] => (mr, [], h)
  | r :: rs =>
    if truthy (dGetD r "is_active" (.vBool true)) = false then runRulesH mr h rs
    else
      match tryBodyH r mr h with
      | .error msg =>
        let (mrf, tr, hf) := runRulesH mr h rs
        (mrf, mkErrEntry r msg :: tr, hf)
      | .ok none => runRulesH mr h rs
      | .ok (some (mr2, expl, h2)) =>
        if truthy (dGetD (hgetD h2 mr2) "_stop_processing" .vNull) then
          (mr2, [mkEntry r expl],
            hset h2 mr2 (eraseKey (hgetD h2 mr2) "_stop_processing"))
        else
          let (mrf, tr, hf) := runRulesH mr2 h2 rs
          (mrf, mkEntry r expl :: tr, hf)

/-- `RuleEngine.evaluate_transaction` against the heap: the working copy
is a fresh allocation, and the caller's object is only ever read. -/
def evaluateTransactionH (txr : Nat) (rules : List Dict) (h : Heap) :
    Except String (Nat × List Dict × Heap) := do
  let sortedRules ← sortRulesE rules
  let (mr, h1) := halloc h (hgetD h txr)
  .ok (runRulesH mr h1 sortedRules)

/-! ### Basic lemmas about the dict model -/

theorem dGet_dSet_self : ∀ (d : Dict) (k : String) (v : Value),
    dGet (dSet d k v) k = some v
  | .nil, k, v => by simp [dSet, dGet]
  | .cons k1 v1 rest, k, v => by
    by_cases h : k1 = k <;> simp [dSet, dGet, h, dGet_dSet_self rest k v]

theorem dGet_dSet_ne : ∀ (d : Dict) (k k2 : String) (v : Value), k ≠ k2 →
    dGet (dSet d k v) k2 = dGet d k2
  | .nil, k, k2, v, h => by simp [dSet, dGet, h]
  | .cons k1 v1 rest, k, k2, v, h => by
    by_cases h1 : k1 = k
    · subst h1
      simp [dSet, dGet, h, dGet_dSet_ne rest k1 k2 v h]
    · simp [dSet, h1]
      by_cases h2 : k1 = k2 <;> simp [dGet, h2, dGet_dSet_ne rest k k2 v h]

theorem dGetD_dSet_ne (d : Dict) (k k2 : String) (v dflt : Value) (h : k ≠ k2) :
    dGetD (dSet d k v) k2 dflt = dGetD d k2 dflt := by
  simp [dGetD, dGet_dSet_ne d k k2 v h]

theorem dGetD_of_hasKey_false (d : Dict) (k : String) (dflt : Value)
    (h : hasKey d k = false) : dGetD d k dflt = dflt := by
  unfold hasKey at h
  unfold dGetD
  cases hg : dGet d k with
  | none => rfl
  | some v => rw [hg] at h; simp at h

theorem hasKey_dSet_ne (d : Dict) (k k2 : String) (v : Value) (h : k ≠ k2) :
    hasKey (dSet d k v) k2 = hasKey d k2 := by
  simp [hasKey, dGet_dSet_ne d k k2 v h]

theorem eraseKey_dSet_of_hasKey_false : ∀ (d : Dict) (k : String) (v : Value),
    hasKey d k = false → eraseKey (dSet d k v) k = d
  | .nil, k, v, _ => by simp [dSet, eraseKey]
  | .cons k1 v1 rest, k, v, h => by
    by_cases h1 : k1 = k
    · subst h1
      simp [hasKey, dGet] at h
    · simp only [hasKey, dGet, if_neg h1] at h
      simp [dSet, eraseKey, h1]
      exact eraseKey_dSet_of_hasKey_false rest k v (by simpa [hasKey] using h)

theorem hasKey_eraseKey_dSet_false (d : Dict) (k : String) (v : Value)
    (h : hasKey d k = false) : hasKey (eraseKey (dSet d k v) k) k = false := by
  rw [eraseKey_dSet_of_hasKey_false d k v h]
  exact h

theorem vsize_pos (v : Value) : 0 < vsize v := by
  cases v <;> simp [vsize]

theorem evalCond_eq_succ (c : Value) (tx : Dict) (n : Nat) (h : vsize c = n + 1) :
    evalCond c tx = evalFuel (n + 1) c tx := by
  rw [evalCond, h]

/-! ### C10: missing `is_active` means active -/

/-- A single-condition claim helper: the leaf conditions the evaluator
dispatches on are dicts with an `operator` and a `value` binding. -/
def leafCond (op : String) (v : Value) : Value :=
  .vDict (vd [("operator", .vStr op), ("value", v)])

theorem tryBody_dSet_is_active (r : Dict) (tx : Dict) (b : Value) :
    tryBody (dSet r "is_active" b) tx = tryBody r tx := by
  unfold tryBody getItem
  simp only [dGet_dSet_ne r "is_active" "condition" b (by decide),
    dGet_dSet_ne r "is_active" "action" b (by decide)]

theorem mkEntry_dSet_is_active (r : Dict) (b : Value) (e : String) :
    mkEntry (dSet r "is_active" b) e = mkEntry r e := by
  unfold mkEntry
  rw [dGetD_dSet_ne r "is_active" "id" b .vNull (by decide),
    dGetD_dSet_ne r "is_active" "name" b .vNull (by decide)]

theorem mkErrEntry_dSet_is_active (r : Dict) (b : Value) (e : String) :
    mkErrEntry (dSet r "is_active" b) e = mkErrEntry r e := by
  unfold mkErrEntry
  rw [dGetD_dSet_ne r "is_active" "id" b .vNull (by decide),
    dGetD_dSet_ne r "is_active" "name" b .vNull (by decide)]

/-- C10: in `evaluate_transaction`, a rule without an `is_active` key is
processed exactly as if `is_active` were `True` (the `.get` default),
and a rule whose `is_active` value is falsy is skipped without a trace
entry or transaction change; a truthy non-missing value also behaves
like explicit `True`. -/
theorem c10_missing_is_active_means_active (tx : Dict) (r : Dict) :
    (hasKey r "is_active" = false →
      evaluateTransaction tx [r] =
        evaluateTransaction tx [dSet r "is_active" (.vBool true)]) ∧
    (truthy (dGetD r "is_active" (.vBool true)) = true →
      evaluateTransaction tx [r] =
        evaluateTransaction tx [dSet r "is_active" (.vBool true)]) ∧
    (truthy (dGetD r "is_active" (.vBool true)) = false →
      evaluateTransaction tx [r] = .ok (tx, [])) := by
  have hact : dGetD (dSet r "is_active" (.vBool true)) "is_active" (.vBool true) =
      .vBool true := by
    simp [dGetD, dGet_dSet_self]
  have hrun : ∀ rr : Dict, evaluateTransaction tx [rr] = .ok (runRules tx [rr]) := by
    intro rr
    rfl
  have key : truthy (dGetD r "is_active" (.vBool true)) = true →
      evaluateTransaction tx [r] =
        evaluateTransaction tx [dSet r "is_active" (.vBool true)] := by
    intro htr
    have htt : truthy (.vBool true) = true := rfl
    rw [hrun, hrun]
    unfold runRules
    simp only [htr, hact, htt, tryBody_dSet_is_active, mkEntry_dSet_is_active,
      mkErrEntry_dSet_is_active]
  refine ⟨?_, key, ?_⟩
  · intro hmiss
    exact key (by rw [dGetD_of_hasKey_false r "is_active" (.vBool true) hmiss]; rfl)
  · intro hfalse
    rw [hrun]
    unfold runRules
    rw [hfalse]
    rfl

/-- Concrete instance of `c10_missing_is_active_means_active`, exercising
all three implications. -/
theorem c10_witness :
    (evaluateTransaction .nil [vd [("name", .vStr "r")]] =
      evaluateTransaction .nil [dSet (vd [("name", .vStr "r")]) "is_active" (.vBool true)]) ∧
    (evaluateTransaction .nil [vd [("name", .vStr "r"), ("is_active", .vInt 2)]] =
      evaluateTransaction .nil
        [dSet (vd [("name", .vStr "r"), ("is_active", .vInt 2)]) "is_active" (.vBool true)]) ∧
    (evaluateTransaction .nil [vd [("name", .vStr "r"), ("is_active", .vInt 0)]] =
      .ok (.nil, [])) :=
  ⟨(c10_missing_is_active_means_active .nil (vd [("name", .vStr "r")])).1 (by decide),
   (c10_missing_is_active_means_active .nil
      (vd [("name", .vStr "r"), ("is_active", .vInt 2)])).2.1 (by decide),
   (c10_missing_is_active_means_active .nil
      (vd [("name", .vStr "r"), ("is_active", .vInt 0)])).2.2 (by decide)⟩

/-! ### C5: defaults for missing transaction fields -/

/-- A `date_range` condition used to probe the missing-field behaviour. -/
def dateRangeCond : Value :=
  .vDict (vd [("operator", .vStr "date_range"),
    ("start", .vStr "2024-01-01"), ("end", .vStr "2024-12-31")])

/-- C5 counterexample: with the `date_range` operator, a transaction
missing `transaction_date` makes `evaluate` raise (the missing field
defaults to `None`, and comparing a datetime with `None` is a
`TypeError`), contradicting the claim that every operator tolerates its
missing field without raising. -/
theorem c5_counterexample :
    hasKey (.nil : Dict) "transaction_date" = false ∧
    evalCond dateRangeCond .nil =
      .error "'<=' not supported between instances of 'datetime.datetime' and the transaction date" :=
  ⟨by decide, by rfl⟩

theorem leafCond_op (op : String) (v : Value) :
    dGetD (vd [("operator", .vStr op), ("value", v)]) "operator" .vNull = .vStr op := by
  rfl

theorem leafCond_val (op : String) (v dflt : Value) :
    dGetD (vd [("operator", .vStr op), ("value", v)]) "value" dflt = v := by
  simp [dGetD, dGet, vd]

/-- C5 as amended: for every operator other than `date_range`, a
transaction missing the field the operator reads evaluates without
raising, using the documented default (empty string for `description`,
`0` for `amount`, `False` for `is_recurring`, `None` for `category_id`);
`date_range` is the exception recorded in `c5_counterexample`. -/
theorem c5_amended (tx : Dict) (s : String) (q : ℚ) (b : Bool) (v : Value) :
    (hasKey tx "description" = false →
      evalCond (leafCond "merchant_contains" (.vStr s)) tx =
        .ok (substrIn (pyLower s).data [])) ∧
    (hasKey tx "description" = false →
      evalCond (leafCond "merchant_regex" (.vStr s)) tx =
        (match reCompile s with
         | .error _ => .ok false
         | .ok r => .ok (reSearch r []))) ∧
    (hasKey tx "amount" = false →
      evalCond (leafCond "amount_gt" (.vDec q)) tx = .ok (decide ((0 : ℚ) > q))) ∧
    (hasKey tx "amount" = false →
      evalCond (leafCond "amount_gte" (.vDec q)) tx = .ok (decide ((0 : ℚ) ≥ q))) ∧
    (hasKey tx "amount" = false →
      evalCond (leafCond "amount_lt" (.vDec q)) tx = .ok (decide ((0 : ℚ) < q))) ∧
    (hasKey tx "amount" = false →
      evalCond (leafCond "amount_lte" (.vDec q)) tx = .ok (decide ((0 : ℚ) ≤ q))) ∧
    (hasKey tx "amount" = false →
      evalCond (leafCond "amount_eq" (.vDec q)) tx = .ok (decide ((0 : ℚ) = q))) ∧
    (hasKey tx "is_recurring" = false →
      evalCond (leafCond "is_recurring" (.vBool b)) tx =
        .ok (pyEq (.vBool false) (.vBool b))) ∧
    (hasKey tx "category_id" = false →
      evalCond (leafCond "category_id_eq" v) tx = .ok (pyEq .vNull v)) := by
  have unf : ∀ (op : String) (w : Value), evalCond (leafCond op w) tx =
      evalFuel (vsize (leafCond op w) - 1 + 1) (leafCond op w) tx := by
    intro op w
    exact evalCond_eq_succ _ _ _ (by have := vsize_pos (leafCond op w); omega)
  refine ⟨?_, ?_, ?_, ?_, ?_, ?_, ?_, ?_, ?_⟩ <;> intro h
  · rw [unf]
    simp [evalFuel, leafCond, leafCond_op, leafCond_val,
      dGetD_of_hasKey_false tx "description" (.vStr "") h,
      asStrLower, pyLower, Bind.bind, Except.bind]
  · rw [unf]
    simp only [evalFuel, leafCond, leafCond_op, leafCond_val,
      dGetD_of_hasKey_false tx "description" (.vStr "") h]
    norm_num
    cases reCompile s <;> simp
  · rw [unf]
    simp [evalFuel, leafCond, leafCond_op, leafCond_val,
      dGetD_of_hasKey_false tx "amount" (.vInt 0) h,
      pyDecimal, Bind.bind, Except.bind]
  · rw [unf]
    simp [evalFuel, leafCond, leafCond_op, leafCond_val,
      dGetD_of_hasKey_false tx "amount" (.vInt 0) h,
      pyDecimal, Bind.bind, Except.bind]
  · rw [unf]
    simp [evalFuel, leafCond, leafCond_op, leafCond_val,
      dGetD_of_hasKey_false tx "amount" (.vInt 0) h,
      pyDecimal, Bind.bind, Except.bind]
  · rw [unf]
    simp [evalFuel, leafCond, leafCond_op, leafCond_val,
      dGetD_of_hasKey_false tx "amount" (.vInt 0) h,
      pyDecimal, Bind.bind, Except.bind]
  · rw [unf]
    simp [evalFuel, leafCond, leafCond_op, leafCond_val,
      dGetD_of_hasKey_false tx "amount" (.vInt 0) h,
      pyDecimal, Bind.bind, Except.bind]
  · rw [unf]
    simp [evalFuel, leafCond, leafCond_op, leafCond_val,
      dGetD_of_hasKey_false tx "is_recurring" (.vBool false) h]
  · rw [unf]
    simp [evalFuel, leafCond, leafCond_op, leafCond_val,
      dGetD_of_hasKey_false tx "category_id" .vNull h]

/-- Concrete instance of `c5_amended` on the empty transaction. -/
theorem c5_amended_witness :
    evalCond (leafCond "merchant_contains" (.vStr "gro")) .nil =
      .ok (substrIn (pyLower "gro").data []) ∧
    evalCond (leafCond "merchant_regex" (.vStr "gro")) .nil =
      (match reCompile "gro" with
       | .error _ => .ok false
       | .ok r => .ok (reSearch r [])) ∧
    evalCond (leafCond "amount_gt" (.vDec 1)) .nil = .ok (decide ((0 : ℚ) > 1)) ∧
    evalCond (leafCond "amount_gte" (.vDec 1)) .nil = .ok (decide ((0 : ℚ) ≥ 1)) ∧
    evalCond (leafCond "amount_lt" (.vDec 1)) .nil = .ok (decide ((0 : ℚ) < 1)) ∧
    evalCond (leafCond "amount_lte" (.vDec 1)) .nil = .ok (decide ((0 : ℚ) ≤ 1)) ∧
    evalCond (leafCond "amount_eq" (.vDec 1)) .nil = .ok (decide ((0 : ℚ) = 1)) ∧
    evalCond (leafCond "is_recurring" (.vBool true)) .nil =
      .ok (pyEq (.vBool false) (.vBool true)) ∧
    evalCond (leafCond "category_id_eq" (.vInt 3)) .nil = .ok (pyEq .vNull (.vInt 3)) := by
  obtain ⟨h1, h2, h3, h4, h5, h6, h7, h8, h9⟩ := c5_amended .nil "gro" 1 true (.vInt 3)
  exact ⟨h1 (by decide), h2 (by decide), h3 (by decide), h4 (by decide), h5 (by decide),
    h6 (by decide), h7 (by decide), h8 (by decide), h9 (by decide)⟩

/-! ### C8: exact decimal amount comparisons -/

/-- C8: each amount operator converts the transaction amount (default
`0`) and the condition value through `Decimal(str(...))` — modelled by
`pyDecimal` into exact rationals — and returns exactly the corresponding
exact relation on those rationals; no other comparison is involved. -/
theorem c8_amount_decimal_exact (tx : Dict) (cv : Value) (qa qv : ℚ)
    (ha : pyDecimal (dGetD tx "amount" (.vInt 0)) = .ok qa)
    (hv : pyDecimal cv = .ok qv) :
    evalCond (leafCond "amount_gt" cv) tx = .ok (decide (qa > qv)) ∧
    evalCond (leafCond "amount_gte" cv) tx = .ok (decide (qa ≥ qv)) ∧
    evalCond (leafCond "amount_lt" cv) tx = .ok (decide (qa < qv)) ∧
    evalCond (leafCond "amount_lte" cv) tx = .ok (decide (qa ≤ qv)) ∧
    evalCond (leafCond "amount_eq" cv) tx = .ok (decide (qa = qv)) := by
  have unf : ∀ (op : String) (w : Value), evalCond (leafCond op w) tx =
      evalFuel (vsize (leafCond op w) - 1 + 1) (leafCond op w) tx := by
    intro op w
    exact evalCond_eq_succ _ _ _ (by have := vsize_pos (leafCond op w); omega)
  refine ⟨?_, ?_, ?_, ?_, ?_⟩ <;> rw [unf] <;>
    simp [evalFuel, leafCond, leafCond_op, leafCond_val, ha, hv,
      Bind.bind, Except.bind]

/-- Concrete instance of `c8_amount_decimal_exact`: a Decimal amount of
five halves versus a Decimal value `2`. -/
theorem c8_amount_witness :
    evalCond (leafCond "amount_gt" (.vDec 2)) (vd [("amount", .vDec (5 / 2))]) =
      .ok (decide ((5 / 2 : ℚ) > 2)) ∧
    evalCond (leafCond "amount_gte" (.vDec 2)) (vd [("amount", .vDec (5 / 2))]) =
      .ok (decide ((5 / 2 : ℚ) ≥ 2)) ∧
    evalCond (leafCond "amount_lt" (.vDec 2)) (vd [("amount", .vDec (5 / 2))]) =
      .ok (decide ((5 / 2 : ℚ) < 2)) ∧
    evalCond (leafCond "amount_lte" (.vDec 2)) (vd [("amount", .vDec (5 / 2))]) =
      .ok (decide ((5 / 2 : ℚ) ≤ 2)) ∧
    evalCond (leafCond "amount_eq" (.vDec 2)) (vd [("amount", .vDec (5 / 2))]) =
      .ok (decide ((5 / 2 : ℚ) = 2)) :=
  c8_amount_decimal_exact (vd [("amount", .vDec (5 / 2))]) (.vDec 2) (5 / 2) 2
    (by rfl) (by rfl)

/-! ### C9: regex validation and runtime behaviour -/

/-- C9: `validate_condition` rejects the non-compiling pattern
`"[invalid("` with a message naming the regex problem, and rejects the
unknown operator `"frobnicate"` with a message naming it; at evaluation
time a pattern that fails to compile makes `merchant_regex` return
`False` instead of raising, and matching is a case-insensitive search
(not a full match) against `description`. -/
theorem c9_regex_validation (tx : Dict) (pat e : String)
    (hc : reCompile pat = .error e) :
    (validateCondition (.vDict (vd [("operator", .vStr "merchant_regex"),
        ("value", .vStr "[invalid(")])) =
      .error "Invalid regex pattern: unterminated character set" ∧
     substrIn "regex".data "Invalid regex pattern: unterminated character set".data = true) ∧
    (∃ m, validateCondition (.vDict (vd [("operator", .vStr "frobnicate")])) = .error m ∧
      substrIn "frobnicate".data m.data = true) ∧
    (evalCond (leafCond "merchant_regex" (.vStr pat)) tx = .ok false) ∧
    (evalCond (leafCond "merchant_regex" (.vStr "caf."))
        (vd [("description", .vStr "MY CAFE X")]) = .ok true) ∧
    (evalCond (leafCond "merchant_regex" (.vStr "afe"))
        (vd [("description", .vStr "CAFE")]) = .ok true) := by
  refine ⟨⟨by rfl, by decide⟩,
    ⟨"Unknown operator: frobnicate. Supported: any, all, merchant_contains, merchant_regex, amount_gt, amount_gte, amount_lt, amount_lte, amount_eq, is_recurring, date_range, category_id_eq",
      by rfl, by decide⟩, ?_, by rfl, by rfl⟩
  rw [evalCond_eq_succ (leafCond "merchant_regex" (.vStr pat)) tx
    (vsize (leafCond "merchant_regex" (.vStr pat)) - 1)
    (by have := vsize_pos (leafCond "merchant_regex" (.vStr pat)); omega)]
  simp [evalFuel, leafCond, leafCond_op, leafCond_val, hc]

/-- Concrete instance of `c9_regex_validation` at the non-compiling
pattern from the spec. -/
theorem c9_regex_witness :
    evalCond (leafCond "merchant_regex" (.vStr "[invalid(")) .nil = .ok false :=
  (c9_regex_validation .nil "[invalid(" "unterminated character set" (by rfl)).2.2.1

/-! ### C7: set_tags unions tags without duplicates -/

/-- Is the value a Python string? -/
def isStrV : Value → Bool
  | .vStr _ => true
  | _ => false

theorem collectStrs_ok : ∀ l : VList, l.toList.all isStrV = true →
    ∃ ss, collectStrs l = .ok ss
  | .nil, _ => ⟨[], rfl⟩
  | .cons hd rest, h => by
    rw [VList.toList, List.all_cons, Bool.and_eq_true] at h
    obtain ⟨ss, hss⟩ := collectStrs_ok rest h.2
    cases hd
    case vStr s => exact ⟨s :: ss, by simp [collectStrs, hss, Except.map]⟩
    all_goals exact absurd h.1 (by simp [isStrV])

/-- C7: executing a `set_tags` action whose tags and the transaction's
existing tags are string lists succeeds and stores, under `tags`, the
deduplicated union of the two lists: every tag of either list is a
member, no tag occurs twice, and all members are strings. -/
theorem c7_set_tags_union (tx : Dict) (a : Dict) (ex ts : VList)
    (htype : dGetD a "type" .vNull = .vStr "set_tags")
    (hts : dGetD a "tags" (.vList .nil) = .vList ts)
    (hex : dGetD tx "tags" (.vList .nil) = .vList ex)
    (hstr : (ex.toList ++ ts.toList).all isStrV = true) :
    ∃ expl,
      executeAct (.vDict a) tx =
        .ok (dSet tx "tags" (.vList (vl (ex.toList ++ ts.toList).dedup)), expl) ∧
      dGetD (dSet tx "tags" (.vList (vl (ex.toList ++ ts.toList).dedup))) "tags"
          (.vList .nil) = .vList (vl (ex.toList ++ ts.toList).dedup) ∧
      (ex.toList ++ ts.toList).dedup.Nodup ∧
      (∀ v : Value, v ∈ (ex.toList ++ ts.toList).dedup ↔
        (v ∈ ex.toList ∨ v ∈ ts.toList)) ∧
      (ex.toList ++ ts.toList).dedup.all isStrV = true := by
  have hstrs := List.all_eq_true.mp hstr
  have hhash : (ex.toList ++ ts.toList).all hashable = true := by
    rw [List.all_eq_true]
    intro v hv
    have h2 := hstrs v hv
    cases v <;> first | rfl | simp [isStrV] at h2
  obtain ⟨ss, hss⟩ := collectStrs_ok ts (by
    rw [List.all_append, Bool.and_eq_true] at hstr
    exact hstr.2)
  refine ⟨"Added tags: " ++ joinComma ss, ?_, ?_, List.nodup_dedup _, ?_, ?_⟩
  · unfold executeAct
    simp [htype, hts, hex, hhash, pyJoinV, hss, Bind.bind, Except.bind, Except.map]
  · simp [dGetD, dGet_dSet_self]
  · intro v
    simp [List.mem_dedup]
  · rw [List.all_eq_true]
    intro v hv
    exact hstrs v (List.mem_dedup.mp hv)

/-- Concrete instance of `c7_set_tags_union`: existing tags
`["a", "b"]`, action tags `["b", "c"]`. -/
theorem c7_set_tags_witness :
    ∃ expl,
      executeAct (.vDict (vd [("type", .vStr "set_tags"),
          ("tags", .vList (vl [.vStr "b", .vStr "c"]))]))
        (vd [("tags", .vList (vl [.vStr "a", .vStr "b"]))]) =
        .ok (dSet (vd [("tags", .vList (vl [.vStr "a", .vStr "b"]))]) "tags"
          (.vList (vl ((vl [.vStr "a", .vStr "b"]).toList ++
            (vl [.vStr "b", .vStr "c"]).toList).dedup)), expl) ∧
      dGetD (dSet (vd [("tags", .vList (vl [.vStr "a", .vStr "b"]))]) "tags"
          (.vList (vl ((vl [.vStr "a", .vStr "b"]).toList ++
            (vl [.vStr "b", .vStr "c"]).toList).dedup))) "tags" (.vList .nil) =
        .vList (vl ((vl [.vStr "a", .vStr "b"]).toList ++
          (vl [.vStr "b", .vStr "c"]).toList).dedup) ∧
      ((vl [.vStr "a", .vStr "b"]).toList ++
        (vl [.vStr "b", .vStr "c"]).toList).dedup.Nodup ∧
      (∀ v : Value, v ∈ ((vl [.vStr "a", .vStr "b"]).toList ++
          (vl [.vStr "b", .vStr "c"]).toList).dedup ↔
        (v ∈ (vl [.vStr "a", .vStr "b"]).toList ∨
          v ∈ (vl [.vStr "b", .vStr "c"]).toList)) ∧
      ((vl [.vStr "a", .vStr "b"]).toList ++
        (vl [.vStr "b", .vStr "c"]).toList).dedup.all isStrV = true :=
  c7_set_tags_union (vd [("tags", .vList (vl [.vStr "a", .vStr "b"]))])
    (vd [("type", .vStr "set_tags"), ("tags", .vList (vl [.vStr "b", .vStr "c"]))])
    (vl [.vStr "a", .vStr "b"]) (vl [.vStr "b", .vStr "c"])
    (by rfl) (by rfl) (by rfl) (by decide)

/-! ### C2: the stop-processing flag and the returned transaction -/

/-- Where the stop flag can come from: an action on a flag-free
transaction either leaves the flag absent, or (for `stop_processing`)
sets exactly the flag binding. -/
theorem executeAct_flag (a : Value) (tx tx2 : Dict) (e : String)
    (hkey : hasKey tx "_stop_processing" = false)
    (h : executeAct a tx = .ok (tx2, e)) :
    hasKey tx2 "_stop_processing" = false ∨
      tx2 = dSet tx "_stop_processing" (.vBool true) := by
  cases a
  case vDict aa =>
    simp only [executeAct, Bind.bind, Except.bind] at h
    iterate 7 all_goals try split at h
    all_goals simp at h
    all_goals obtain ⟨h1, h2⟩ := h
    all_goals first
      | exact Or.inl (by rw [← h1, hasKey_dSet_ne tx _ _ _ (by decide)]; exact hkey)
      | exact Or.inl (by rw [← h1]; exact hkey)
      | exact Or.inr h1.symm
  all_goals exact absurd h (by simp [executeAct])

/-- Success of the per-rule body names the executed action. -/
theorem tryBody_some (r tx : Dict) (tx2 : Dict) (expl : String)
    (h : tryBody r tx = .ok (some (tx2, expl))) :
    ∃ a, executeAct a tx = .ok (tx2, expl) := by
  unfold tryBody getItem at h
  simp only [Bind.bind, Except.bind] at h
  iterate 6 all_goals try split at h
  all_goals simp at h
  subst h
  exact ⟨_, by assumption⟩

/-- The flag invariant of the rule walk: starting from a flag-free
working copy, the returned transaction is flag-free (the only action
that sets it is `stop_processing`, and the engine pops it before
breaking). -/
theorem runRules_no_flag : ∀ (rs : List Dict) (tx : Dict),
    hasKey tx "_stop_processing" = false →
    hasKey (runRules tx rs).1 "_stop_processing" = false
  | [], _, h => h
  | r :: rs, tx, h => by
    unfold runRules
    by_cases hact : truthy (dGetD r "is_active" (.vBool true)) = false
    · rw [if_pos hact]
      exact runRules_no_flag rs tx h
    · rw [if_neg hact]
      cases htb : tryBody r tx with
      | error msg =>
        have ih := runRules_no_flag rs tx h
        rcases hr : runRules tx rs with ⟨txf, tr⟩
        rw [hr] at ih
        simpa [hr] using ih
      | ok o =>
        cases o with
        | none => exact runRules_no_flag rs tx h
        | some p =>
          obtain ⟨tx2, expl⟩ := p
          obtain ⟨a, ha⟩ := tryBody_some r tx tx2 expl htb
          rcases executeAct_flag a tx tx2 expl h ha with hf | hf
          · by_cases hstop : truthy (dGetD tx2 "_stop_processing" .vNull) = true
            · rw [dGetD_of_hasKey_false tx2 _ _ hf] at hstop
              exact absurd hstop (by decide)
            · dsimp only
              rw [if_neg hstop]
              have ih := runRules_no_flag rs tx2 hf
              rcases hr : runRules tx2 rs with ⟨txf, tr⟩
              rw [hr] at ih
              simpa [hr] using ih
          · have hstop : truthy (dGetD tx2 "_stop_processing" .vNull) = true := by
              rw [hf]
              simp [dGetD, dGet_dSet_self, truthy]
            dsimp only
            rw [if_pos hstop]
            show hasKey (eraseKey tx2 "_stop_processing") "_stop_processing" = false
            rw [hf, eraseKey_dSet_of_hasKey_false tx _ _ h]
            exact h

/-- C2 counterexample: a caller-supplied transaction that already carries
the engine-private `_stop_processing` key is returned with the key still
present when no rule matches (here: the empty rule list), so the
returned mapping can contain the flag. -/
theorem c2_counterexample :
    evaluateTransaction (vd [("_stop_processing", .vBool true)]) [] =
      .ok (vd [("_stop_processing", .vBool true)], []) ∧
    hasKey (vd [("_stop_processing", .vBool true)]) "_stop_processing" = true :=
  ⟨rfl, by decide⟩

/-- C2 as amended: whenever the caller's transaction does not already
contain the engine-private `_stop_processing` key, the transaction
returned by `evaluate_transaction` does not contain it either — in
particular the flag set by a `stop_processing` action is always removed
before returning. -/
theorem c2_amended (tx : Dict) (rules : List Dict) (out : Dict × List Dict)
    (hkey : hasKey tx "_stop_processing" = false)
    (hok : evaluateTransaction tx rules = .ok out) :
    hasKey out.1 "_stop_processing" = false := by
  unfold evaluateTransaction at hok
  simp only [Bind.bind, Except.bind] at hok
  cases hs : sortRulesE rules with
  | error e =>
    rw [hs] at hok
    exact absurd hok (by simp)
  | ok sr =>
    rw [hs] at hok
    simp only [Except.ok.injEq] at hok
    rw [← hok]
    exact runRules_no_flag sr tx hkey

/-- Concrete instance of `c2_amended`: a flag-free transaction run
against a matching `stop_processing` rule comes back flag-free. -/
theorem c2_amended_witness :
    hasKey ((vd [("amount", .vInt 1)],
      [vd [("rule_id", .vNull), ("name", .vNull),
        ("explanation", .vStr "Stopped further rule processing")]]) :
        Dict × List Dict).1 "_stop_processing" = false :=
  c2_amended (vd [("amount", .vInt 1)])
    [vd [("condition", leafCond "amount_gt" (.vInt 0)),
      ("action", .vDict (vd [("type", .vStr "stop_processing")]))]]
    (vd [("amount", .vInt 1)],
      [vd [("rule_id", .vNull), ("name", .vNull),
        ("explanation", .vStr "Stopped further rule processing")]])
    (by decide) (by rfl)

/-! ### C3: stop_processing short-circuits the walk -/

/-- C3: with a higher-priority active rule whose condition matches and
whose action is `stop_processing`, together with any lower-priority
rule (in either list order), the engine returns the transaction
unchanged with a trace of exactly one entry — the stop rule's — and the
run is identical to running the stop rule alone, so the lower-priority
rule's condition is never evaluated and its action never executed. -/
theorem c3_stop_short_circuit (tx : Dict) (r1 r2 : Dict) (p1 p2 : Int)
    (c1 : Value) (a1 : Dict)
    (h1p : keyOf r1 = .vInt p1) (h2p : keyOf r2 = .vInt p2) (hlt : p2 < p1)
    (hact1 : truthy (dGetD r1 "is_active" (.vBool true)) = true)
    (_hact2 : truthy (dGetD r2 "is_active" (.vBool true)) = true)
    (hc1 : dGet r1 "condition" = some c1)
    (hm1 : evalCond c1 tx = .ok true)
    (ha1 : dGet r1 "action" = some (.vDict a1))
    (htype : dGetD a1 "type" .vNull = .vStr "stop_processing")
    (hflag : hasKey tx "_stop_processing" = false) :
    evaluateTransaction tx [r1, r2] =
      .ok (tx, [mkEntry r1 "Stopped further rule processing"]) ∧
    evaluateTransaction tx [r2, r1] =
      .ok (tx, [mkEntry r1 "Stopped further rule processing"]) ∧
    evaluateTransaction tx [r1] =
      .ok (tx, [mkEntry r1 "Stopped further rule processing"]) := by
  have hexec : executeAct (.vDict a1) tx =
      .ok (dSet tx "_stop_processing" (.vBool true), "Stopped further rule processing") := by
    unfold executeAct
    simp [htype]
  have htry : tryBody r1 tx =
      .ok (some (dSet tx "_stop_processing" (.vBool true),
        "Stopped further rule processing")) := by
    unfold tryBody getItem
    rw [hc1]
    simp [Bind.bind, Except.bind, hm1, ha1, hexec]
  have hstep : ∀ rest, runRules tx (r1 :: rest) =
      (tx, [mkEntry r1 "Stopped further rule processing"]) := by
    intro rest
    have hget2 : dGetD (dSet tx "_stop_processing" (.vBool true))
        "_stop_processing" .vNull = .vBool true := by
      simp [dGetD, dGet_dSet_self]
    unfold runRules
    rw [hact1]
    simp only [htry, hget2, eraseKey_dSet_of_hasKey_false tx _ _ hflag]
    simp [truthy]
  have hq12 : ¬((p1 : ℚ) < (p2 : ℚ)) := by
    rw [Int.cast_lt]
    omega
  have hq21 : (p2 : ℚ) < (p1 : ℚ) := by
    rw [Int.cast_lt]
    exact hlt
  have hsorted12 : sortRulesE [r1, r2] = .ok [r1, r2] := by
    unfold sortRulesE
    simp [h1p, h2p, keyClass, sortRules, insertRule, valLt, toQ, hq12]
  have hsorted21 : sortRulesE [r2, r1] = .ok [r1, r2] := by
    unfold sortRulesE
    simp [h1p, h2p, keyClass, sortRules, insertRule, valLt, toQ, hq21]
  refine ⟨?_, ?_, ?_⟩
  · unfold evaluateTransaction
    simp [hsorted12, Bind.bind, Except.bind, hstep]
  · unfold evaluateTransaction
    simp [hsorted21, Bind.bind, Except.bind, hstep]
  · unfold evaluateTransaction
    simp [Bind.bind, Except.bind, sortRulesE, hstep]

/-- Concrete instance of `c3_stop_short_circuit`: a priority-99 stop
rule next to a priority-1 always-matching rule. -/
theorem c3_stop_witness :
    evaluateTransaction (vd [("amount", .vInt 7)])
      [vd [("id", .vInt 3), ("name", .vStr "stop"), ("priority", .vInt 99),
        ("condition", leafCond "amount_gt" (.vInt 0)),
        ("action", .vDict (vd [("type", .vStr "stop_processing")]))],
       vd [("id", .vInt 2), ("name", .vStr "low"), ("priority", .vInt 1),
        ("condition", leafCond "amount_gt" (.vInt 0)),
        ("action", .vDict (vd [("type", .vStr "set_category"), ("category_id", .vInt 5)]))]] =
      .ok (vd [("amount", .vInt 7)],
        [mkEntry (vd [("id", .vInt 3), ("name", .vStr "stop"), ("priority", .vInt 99),
          ("condition", leafCond "amount_gt" (.vInt 0)),
          ("action", .vDict (vd [("type", .vStr "stop_processing")]))])
          "Stopped further rule processing"]) :=
  (c3_stop_short_circuit (vd [("amount", .vInt 7)])
    (vd [("id", .vInt 3), ("name", .vStr "stop"), ("priority", .vInt 99),
      ("condition", leafCond "amount_gt" (.vInt 0)),
      ("action", .vDict (vd [("type", .vStr "stop_processing")]))])
    (vd [("id", .vInt 2), ("name", .vStr "low"), ("priority", .vInt 1),
      ("condition", leafCond "amount_gt" (.vInt 0)),
      ("action", .vDict (vd [("type", .vStr "set_category"), ("category_id", .vInt 5)]))])
    99 1 (leafCond "amount_gt" (.vInt 0)) (vd [("type", .vStr "stop_processing")])
    (by rfl) (by rfl) (by decide) (by rfl) (by rfl) (by rfl) (by rfl) (by rfl)
    (by rfl) (by decide)).1

/-! ### C1: error recovery and the exception that still escapes -/

/-- C1 counterexample: `evaluate_transaction` sorts before the per-rule
`try`, and sorting raises `TypeError` when two rules' priority values do
not support `<` between them (here `1` and `"x"`), so an exception does
propagate to the caller for such rule lists. -/
theorem c1_counterexample :
    evaluateTransaction .nil [vd [("priority", .vInt 1)], vd [("priority", .vStr "x")]] =
      .error "'<' not supported between instances" := by
  rfl

theorem insertRule_length (r : Dict) : ∀ l : List Dict,
    (insertRule r l).length = l.length + 1
  | [] => rfl
  | x :: xs => by
    unfold insertRule
    split
    · simp
    · simp [insertRule_length r xs]

theorem foldl_insert_length : ∀ (l acc : List Dict),
    (l.foldl (fun acc r => insertRule r acc) acc).length = acc.length + l.length
  | [], acc => by simp
  | r :: rs, acc => by
    simp only [List.foldl_cons]
    rw [foldl_insert_length rs (insertRule r acc), insertRule_length]
    simp
    omega

theorem sortRules_length (l : List Dict) : (sortRules l).length = l.length := by
  unfold sortRules
  rw [foldl_insert_length]
  simp

theorem mem_insertRule (r x : Dict) : ∀ l : List Dict,
    x ∈ insertRule r l ↔ x = r ∨ x ∈ l
  | [] => by simp [insertRule]
  | y :: ys => by
    unfold insertRule
    split
    · simp
      try tauto
    · simp [mem_insertRule r x ys]
      try tauto

theorem mem_foldl_insert (x : Dict) : ∀ (l acc : List Dict),
    x ∈ l.foldl (fun acc r => insertRule r acc) acc ↔ x ∈ acc ∨ x ∈ l
  | [], acc => by simp
  | r :: rs, acc => by
    simp only [List.foldl_cons]
    rw [mem_foldl_insert x rs (insertRule r acc), mem_insertRule]
    simp
    tauto

theorem mem_sortRules (x : Dict) (l : List Dict) : x ∈ sortRules l ↔ x ∈ l := by
  unfold sortRules
  rw [mem_foldl_insert]
  simp

/-- `sorted` succeeds when every priority key is numeric (bool, int or
Decimal): Python's numeric tower is totally ordered, so Timsort never
hits an unsupported comparison. -/
theorem sortRulesE_ok_of_num (rules : List Dict)
    (hnum : rules.all (fun r => decide (keyClass (keyOf r) = some .num)) = true) :
    sortRulesE rules = .ok (sortRules rules) := by
  match rules with
  | [] => rfl
  | [r] => rfl
  | r :: r2 :: rest =>
    rw [List.all_cons, Bool.and_eq_true, decide_eq_true_eq] at hnum
    unfold sortRulesE
    simp only [List.map_cons, hnum.1]
    have hrest : ∀ x ∈ r2 :: rest, keyClass (keyOf x) = some KClass.num := by
      intro x hx
      have := List.all_eq_true.mp hnum.2 x hx
      simpa using this
    simp [List.all_eq_true, hrest]
    intro x hx
    exact hrest x (by simp [hx])

/-- The all-error run: when every rule is active and lacks a `condition`
key, each iteration hits the `KeyError`, records an error entry, and
leaves the working copy untouched. -/
theorem runRules_all_err : ∀ (rs : List Dict) (tx : Dict),
    rs.all (fun r => !hasKey r "condition" &&
      truthy (dGetD r "is_active" (.vBool true))) = true →
    runRules tx rs = (tx, rs.map (fun r => mkErrEntry r "'condition'"))
  | [], _, _ => rfl
  | r :: rs, tx, h => by
    rw [List.all_cons, Bool.and_eq_true] at h
    obtain ⟨h1, h2⟩ := h
    rw [Bool.and_eq_true, Bool.not_eq_true'] at h1
    have hnone : dGet r "condition" = none := by
      have := h1.1
      unfold hasKey at this
      exact Option.not_isSome_iff_eq_none.mp (by simp [this])
    have htry : tryBody r tx = .error "'condition'" := by
      unfold tryBody getItem
      rw [hnone]
      rfl
    unfold runRules
    rw [h1.2]
    simp only [htry, runRules_all_err rs tx h2]
    simp

/-- C1 as amended: whenever the rules' priority values are mutually
comparable (here: all numeric, the validated case), no exception
propagates out of `evaluate_transaction` — it always returns a
`(transaction, trace)` pair, and per-rule errors are recovered into
error-marked trace entries; in particular if every (active) rule errors,
the transaction is returned unchanged and every trace entry carries the
`error` marker and an `Error: `-prefixed explanation. Priorities that do
not support `<` between them make the pre-loop sort raise instead
(`c1_counterexample`). -/
theorem c1_amended (tx : Dict) (rules : List Dict)
    (hnum : rules.all (fun r => decide (keyClass (keyOf r) = some .num)) = true) :
    (∃ out, evaluateTransaction tx rules = .ok out) ∧
    (rules.all (fun r => !hasKey r "condition" &&
        truthy (dGetD r "is_active" (.vBool true))) = true →
      ∃ trace, evaluateTransaction tx rules = .ok (tx, trace) ∧
        trace.length = rules.length ∧
        ∀ e ∈ trace, dGetD e "error" .vNull = .vBool true ∧
          ∃ m, dGetD e "explanation" .vNull = .vStr ("Error: " ++ m)) := by
  have hs := sortRulesE_ok_of_num rules hnum
  have heval : evaluateTransaction tx rules = .ok (runRules tx (sortRules rules)) := by
    unfold evaluateTransaction
    simp [hs, Bind.bind, Except.bind]
  refine ⟨⟨runRules tx (sortRules rules), heval⟩, ?_⟩
  intro herr
  have herr2 : (sortRules rules).all (fun r => !hasKey r "condition" &&
      truthy (dGetD r "is_active" (.vBool true))) = true := by
    rw [List.all_eq_true]
    intro x hx
    exact List.all_eq_true.mp herr x ((mem_sortRules x rules).mp hx)
  refine ⟨(sortRules rules).map (fun r => mkErrEntry r "'condition'"), ?_, ?_, ?_⟩
  · rw [heval, runRules_all_err (sortRules rules) tx herr2]
  · rw [List.length_map, sortRules_length]
  · intro e he
    obtain ⟨r, _, hr⟩ := List.mem_map.mp he
    exact ⟨by rw [← hr]; rfl, "'condition'", by rw [← hr]; rfl⟩

/-- Concrete instance of `c1_amended`: two condition-less active rules
with numeric priorities. -/
theorem c1_amended_witness :
    (∃ out, evaluateTransaction .nil [vd [("priority", .vInt 5)], vd []] = .ok out) ∧
    (∃ trace, evaluateTransaction .nil [vd [("priority", .vInt 5)], vd []] =
        .ok (.nil, trace) ∧
      trace.length = ([vd [("priority", .vInt 5)], vd []] : List Dict).length ∧
      ∀ e ∈ trace, dGetD e "error" .vNull = .vBool true ∧
        ∃ m, dGetD e "explanation" .vNull = .vStr ("Error: " ++ m)) :=
  ⟨(c1_amended .nil [vd [("priority", .vInt 5)], vd []] (by decide)).1,
   (c1_amended .nil [vd [("priority", .vInt 5)], vd []] (by decide)).2 (by decide)⟩

/-! ### C4: order theory of the priority sort -/

theorem lexLt_irrefl : ∀ s : List Char, lexLt s s = false
  | [] => rfl
  | c :: cs => by simp [lexLt, lexLt_irrefl cs]

theorem lexLt_asymm : ∀ s t : List Char, lexLt s t = true → lexLt t s = false
  | [], [] => by simp [lexLt]
  | [], _ :: _ => by simp [lexLt]
  | _ :: _, [] => by simp [lexLt]
  | a :: as, b :: bs => by
    simp only [lexLt]
    by_cases h1 : a < b
    · rw [if_pos h1, if_neg (asymm h1), if_pos h1]
      intro _
      rfl
    · rw [if_neg h1]
      by_cases h2 : b < a
      · rw [if_pos h2]
        intro hcon
        exact absurd hcon (by simp)
      · rw [if_neg h2, if_neg h2, if_neg h1]
        exact lexLt_asymm as bs

theorem lexLt_trans : ∀ s t u : List Char,
    lexLt s t = true → lexLt t u = true → lexLt s u = true
  | [], t, [], h1, h2 => by
    cases t with
    | nil => simp [lexLt] at h1
    | cons c cs => simp [lexLt] at h2
  | [], _, _ :: _, _, _ => by simp [lexLt]
  | _ :: _, [], _, h1, _ => by simp [lexLt] at h1
  | _ :: _, _ :: _, [], _, h2 => by simp [lexLt] at h2
  | a :: as, b :: bs, c :: cs, h1, h2 => by
    simp only [lexLt] at h1 h2 ⊢
    by_cases hab : a < b
    · by_cases hbc : b < c
      · rw [if_pos (lt_trans hab hbc)]
      · rw [if_neg hbc] at h2
        by_cases hcb : c < b
        · rw [if_pos hcb] at h2
          exact absurd h2 (by simp)
        · have hbc2 : b = c := le_antisymm (not_lt.mp hcb) (not_lt.mp hbc)
          rw [if_pos (hbc2 ▸ hab)]
    · rw [if_neg hab] at h1
      by_cases hba : b < a
      · rw [if_pos hba] at h1
        exact absurd h1 (by simp)
      · have hab2 : a = b := le_antisymm (not_lt.mp hba) (not_lt.mp hab)
        subst hab2
        rw [if_neg hab] at h1
        by_cases hac : a < c
        · rw [if_pos hac]
        · rw [if_neg hac] at h2 ⊢
          by_cases hca : c < a
          · rw [if_pos hca] at h2
            exact absurd h2 (by simp)
          · rw [if_neg hca] at h2 ⊢
            exact lexLt_trans as bs cs h1 h2

theorem lexLt_not_lt : ∀ s t : List Char,
    lexLt s t = false → s = t ∨ lexLt t s = true
  | [], [] => fun _ => Or.inl rfl
  | [], _ :: _ => by simp [lexLt]
  | _ :: _, [] => by simp [lexLt]
  | a :: as, b :: bs => by
    simp only [lexLt]
    by_cases hab : a < b
    · rw [if_pos hab]
      intro hcon
      exact absurd hcon (by simp)
    · rw [if_neg hab]
      by_cases hba : b < a
      · rw [if_pos hba, if_pos hba]
        intro _
        exact Or.inr rfl
      · have hab2 : a = b := le_antisymm (not_lt.mp hba) (not_lt.mp hab)
        subst hab2
        rw [if_neg hab, if_neg hab, if_neg hab]
        intro h
        rcases lexLt_not_lt as bs h with h2 | h2
        · exact Or.inl (by rw [h2])
        · exact Or.inr h2

theorem keyClass_num_toQ (v : Value) (h : keyClass v = some .num) :
    ∃ q, toQ v = some q := by
  cases v <;> simp [keyClass] at h <;> exact ⟨_, rfl⟩

theorem keyClass_str_form (v : Value) (h : keyClass v = some .str) :
    ∃ s, v = .vStr s := by
  cases v <;> simp [keyClass] at h
  exact ⟨_, rfl⟩

theorem keyClass_date_form (v : Value) (h : keyClass v = some .date) :
    ∃ t, v = .vDate t := by
  cases v <;> simp [keyClass] at h
  exact ⟨_, rfl⟩

theorem valLt_irrefl (a : Value) : valLt a a = false := by
  cases a <;> simp [valLt, toQ, lexLt_irrefl]

theorem toQ_valLt (a b : Value) (qa qb : ℚ) (ha : toQ a = some qa)
    (hb : toQ b = some qb) : valLt a b = decide (qa < qb) := by
  unfold valLt
  rw [ha, hb]

theorem valLt_chain (c : KClass) (x y r : Value)
    (hx : keyClass x = some c) (hy : keyClass y = some c)
    (hr : keyClass r = some c)
    (h1 : valLt x r = true) (h2 : valLt x y = false) : valLt r y = false := by
  cases c
  case num =>
    obtain ⟨qx, hqx⟩ := keyClass_num_toQ x hx
    obtain ⟨qy, hqy⟩ := keyClass_num_toQ y hy
    obtain ⟨qr, hqr⟩ := keyClass_num_toQ r hr
    rw [toQ_valLt x r qx qr hqx hqr] at h1
    rw [toQ_valLt x y qx qy hqx hqy] at h2
    rw [toQ_valLt r y qr qy hqr hqy]
    simp only [decide_eq_true_eq] at h1
    simp only [decide_eq_false_iff_not] at h2 ⊢
    intro hcon
    exact h2 (lt_trans h1 hcon)
  case str =>
    obtain ⟨sx, rfl⟩ := keyClass_str_form x hx
    obtain ⟨sy, rfl⟩ := keyClass_str_form y hy
    obtain ⟨sr, rfl⟩ := keyClass_str_form r hr
    simp only [valLt, toQ] at h1 h2 ⊢
    rcases lexLt_not_lt _ _ h2 with he | hlt
    · rw [← he]
      exact lexLt_asymm _ _ h1
    · by_contra hcon
      rw [Bool.not_eq_false] at hcon
      have := lexLt_trans _ _ _ (lexLt_trans _ _ _ h1 hcon) hlt
      rw [lexLt_irrefl] at this
      exact absurd this (by simp)
  case date =>
    obtain ⟨tx, rfl⟩ := keyClass_date_form x hx
    obtain ⟨ty, rfl⟩ := keyClass_date_form y hy
    obtain ⟨tr, rfl⟩ := keyClass_date_form r hr
    simp only [valLt, toQ, decide_eq_true_eq, decide_eq_false_iff_not] at h1 h2 ⊢
    omega

theorem valLt_asymm_general (a b : Value) (h : valLt a b = true) :
    valLt b a = false := by
  cases hqa : toQ a <;> cases hqb : toQ b
  case none.none =>
    unfold valLt at h ⊢
    rw [hqa, hqb] at h ⊢
    cases a <;> cases b <;> simp_all [toQ]
    · exact lexLt_asymm _ _ h
    · omega
  case none.some =>
    unfold valLt at h
    rw [hqa, hqb] at h
    cases a <;> cases b <;> simp_all [toQ]
  case some.none =>
    unfold valLt at h
    rw [hqa, hqb] at h
    cases a <;> cases b <;> simp_all [toQ]
  case some.some =>
    rw [toQ_valLt a b _ _ hqa hqb] at h
    rw [toQ_valLt b a _ _ hqb hqa]
    simp only [decide_eq_true_eq] at h
    simp only [decide_eq_false_iff_not]
    exact asymm h

theorem pairwise_insertRule (c : KClass) (r : Dict) : ∀ acc : List Dict,
    keyClass (keyOf r) = some c →
    (∀ x ∈ acc, keyClass (keyOf x) = some c) →
    acc.Pairwise (fun a b => valLt (keyOf a) (keyOf b) = false) →
    (insertRule r acc).Pairwise (fun a b => valLt (keyOf a) (keyOf b) = false)
  | [], _, _, _ => by simp [insertRule]
  | x :: xs, hr, hacc, hp => by
    unfold insertRule
    cases hcond : valLt (keyOf x) (keyOf r) with
    | true =>
      rw [if_pos rfl]
      refine List.Pairwise.cons ?_ hp
      intro y hy
      rcases List.mem_cons.mp hy with rfl | hy2
      · exact valLt_asymm_general _ _ hcond
      · exact valLt_chain c (keyOf x) (keyOf y) (keyOf r) (hacc x (by simp))
          (hacc y (by simp [hy2])) hr hcond ((List.pairwise_cons.mp hp).1 y hy2)
    | false =>
      rw [if_neg (by simp)]
      have hp2 := List.pairwise_cons.mp hp
      refine List.Pairwise.cons ?_ (pairwise_insertRule c r xs hr
        (fun z hz => hacc z (by simp [hz])) hp2.2)
      intro y hy
      rcases (mem_insertRule r y xs).mp hy with rfl | hy2
      · exact hcond
      · exact hp2.1 y hy2

theorem filter_insertRule (c : KClass) (k : Value) (r : Dict) : ∀ acc : List Dict,
    keyClass (keyOf r) = some c →
    (∀ x ∈ acc, keyClass (keyOf x) = some c) →
    acc.Pairwise (fun a b => valLt (keyOf a) (keyOf b) = false) →
    (insertRule r acc).filter (fun x => beqV (keyOf x) k) =
      acc.filter (fun x => beqV (keyOf x) k) ++
        (if beqV (keyOf r) k = true then [r] else [])
  | [], _, _, _ => by
    cases hbr : beqV (keyOf r) k <;> simp [insertRule, List.filter, hbr]
  | x :: xs, hr, hacc, hp => by
    unfold insertRule
    cases hcond : valLt (keyOf x) (keyOf r) with
    | false =>
      rw [if_neg (by simp)]
      rw [List.filter_cons, List.filter_cons]
      rw [filter_insertRule c k r xs hr (fun z hz => hacc z (by simp [hz]))
        (List.pairwise_cons.mp hp).2]
      split <;> simp
    | true =>
      rw [if_pos rfl]
      cases hbr : beqV (keyOf r) k with
      | false =>
        simp [List.filter_cons, hbr]
      | true =>
        have hk : keyOf r = k := (beqV_iff _ _).mp hbr
        have hnone : ∀ y ∈ x :: xs, beqV (keyOf y) k = false := by
          intro y hy
          cases hby : beqV (keyOf y) k with
          | false => rfl
          | true =>
            exfalso
            have hky : keyOf y = k := (beqV_iff _ _).mp hby
            rcases List.mem_cons.mp hy with rfl | hy2
            · rw [hky, ← hk] at hcond
              rw [valLt_irrefl] at hcond
              exact absurd hcond (by simp)
            · have hxy := (List.pairwise_cons.mp hp).1 y hy2
              rw [hky, ← hk] at hxy
              rw [hcond] at hxy
              exact absurd hxy (by simp)
        have hfilter : (x :: xs).filter (fun y => beqV (keyOf y) k) = [] := by
          rw [List.filter_eq_nil_iff]
          intro y hy
          simp [hnone y hy]
        rw [List.filter_cons, hfilter]
        simp [hbr]

theorem pairwise_foldl_insert (c : KClass) : ∀ (l acc : List Dict),
    (∀ x ∈ l, keyClass (keyOf x) = some c) →
    (∀ x ∈ acc, keyClass (keyOf x) = some c) →
    acc.Pairwise (fun a b => valLt (keyOf a) (keyOf b) = false) →
    (l.foldl (fun acc r => insertRule r acc) acc).Pairwise
      (fun a b => valLt (keyOf a) (keyOf b) = false)
  | [], _, _, _, hp => hp
  | r :: rs, acc, hl, hacc, hp => by
    simp only [List.foldl_cons]
    exact pairwise_foldl_insert c rs (insertRule r acc)
      (fun x hx => hl x (by simp [hx]))
      (fun x hx => by
        rcases (mem_insertRule r x acc).mp hx with rfl | hx2
        · exact hl x (by simp)
        · exact hacc x hx2)
      (pairwise_insertRule c r acc (hl r (by simp)) hacc hp)

theorem filter_foldl_insert (c : KClass) (k : Value) : ∀ (l acc : List Dict),
    (∀ x ∈ l, keyClass (keyOf x) = some c) →
    (∀ x ∈ acc, keyClass (keyOf x) = some c) →
    acc.Pairwise (fun a b => valLt (keyOf a) (keyOf b) = false) →
    (l.foldl (fun acc r => insertRule r acc) acc).filter
        (fun x => beqV (keyOf x) k) =
      acc.filter (fun x => beqV (keyOf x) k) ++ l.filter (fun x => beqV (keyOf x) k)
  | [], _, _, _, _ => by simp
  | r :: rs, acc, hl, hacc, hp => by
    simp only [List.foldl_cons]
    rw [filter_foldl_insert c k rs (insertRule r acc)
      (fun x hx => hl x (by simp [hx]))
      (fun x hx => by
        rcases (mem_insertRule r x acc).mp hx with rfl | hx2
        · exact hl x (by simp)
        · exact hacc x hx2)
      (pairwise_insertRule c r acc (hl r (by simp)) hacc hp)]
    rw [filter_insertRule c k r acc (hl r (by simp)) hacc hp]
    rw [List.filter_cons]
    split <;> simp

theorem sortRules_pairwise (c : KClass) (l : List Dict)
    (hall : ∀ x ∈ l, keyClass (keyOf x) = some c) :
    (sortRules l).Pairwise (fun a b => valLt (keyOf a) (keyOf b) = false) :=
  pairwise_foldl_insert c l [] hall (by simp) (by simp)

theorem sortRules_filter_stable (c : KClass) (k : Value) (l : List Dict)
    (hall : ∀ x ∈ l, keyClass (keyOf x) = some c) :
    (sortRules l).filter (fun x => beqV (keyOf x) k) =
      l.filter (fun x => beqV (keyOf x) k) := by
  unfold sortRules
  rw [filter_foldl_insert c k l [] hall (by simp) (by simp)]
  simp

/-- The identifiers of the trace entries form an in-order sublist of the
identifiers of the active rules, in walk order. -/
theorem runRules_trace_sublist : ∀ (rs : List Dict) (tx : Dict),
    ((runRules tx rs).2.map (fun e => dGetD e "rule_id" .vNull)).Sublist
      ((rs.filter (fun r => truthy (dGetD r "is_active" (.vBool true)))).map
        (fun r => dGetD r "id" .vNull))
  | [], _ => by simp [runRules]
  | r :: rs, tx => by
    unfold runRules
    cases hact : truthy (dGetD r "is_active" (.vBool true)) with
    | false =>
      rw [if_pos rfl]
      rw [List.filter_cons, hact]
      simp only [Bool.false_eq_true, if_false]
      exact runRules_trace_sublist rs tx
    | true =>
      rw [if_neg (by simp)]
      rw [List.filter_cons, hact]
      rw [if_pos rfl]
      cases htb : tryBody r tx with
      | error msg =>
        rcases hr2 : runRules tx rs with ⟨txf, tr⟩
        dsimp only
        rw [List.map_cons,
          (rfl : dGetD (mkErrEntry r msg) "rule_id" .vNull = dGetD r "id" .vNull)]
        refine List.Sublist.cons₂ _ ?_
        have ih := runRules_trace_sublist rs tx
        rw [hr2] at ih
        exact ih
      | ok o =>
        cases o with
        | none =>
          dsimp only
          exact (runRules_trace_sublist rs tx).cons _
        | some p =>
          obtain ⟨tx2, expl⟩ := p
          dsimp only
          cases hstop : truthy (dGetD tx2 "_stop_processing" .vNull) with
          | true =>
            rw [if_pos rfl]
            simp only [List.map_cons, List.map_nil]
            rw [(rfl : dGetD (mkEntry r expl) "rule_id" .vNull = dGetD r "id" .vNull)]
            exact List.Sublist.cons₂ _ (List.nil_sublist _)
          | false =>
            rw [if_neg (by simp)]
            rcases hr2 : runRules tx2 rs with ⟨txf, tr⟩
            dsimp only
            rw [List.map_cons,
              (rfl : dGetD (mkEntry r expl) "rule_id" .vNull = dGetD r "id" .vNull)]
            refine List.Sublist.cons₂ _ ?_
            have ih := runRules_trace_sublist rs tx2
            rw [hr2] at ih
            exact ih

/-- C4: whenever the priority sort succeeds, the sorted list `sr` that
`evaluate_transaction` walks is (i) priority-descending (no later rule's
key is above an earlier one's), (ii) a stable permutation of the input —
for every key value, the rules carrying that key appear in input order —
and (iii) the emitted trace follows that order: the trace's rule ids
form an in-order sublist of the ids of the active rules of `sr`. -/
theorem c4_priority_order (tx : Dict) (rules sr : List Dict)
    (hs : sortRulesE rules = .ok sr) :
    sr.Pairwise (fun a b => valLt (keyOf a) (keyOf b) = false) ∧
    (∀ k : Value, sr.filter (fun r => beqV (keyOf r) k) =
      rules.filter (fun r => beqV (keyOf r) k)) ∧
    (∀ out, evaluateTransaction tx rules = .ok out →
      (out.2.map (fun e => dGetD e "rule_id" .vNull)).Sublist
        ((sr.filter (fun r => truthy (dGetD r "is_active" (.vBool true)))).map
          (fun r => dGetD r "id" .vNull))) := by
  have hsub : ∀ out, evaluateTransaction tx rules = .ok out →
      (out.2.map (fun e => dGetD e "rule_id" .vNull)).Sublist
        ((sr.filter (fun r => truthy (dGetD r "is_active" (.vBool true)))).map
          (fun r => dGetD r "id" .vNull)) := by
    intro out ho
    have hout : out = runRules tx sr := by
      unfold evaluateTransaction at ho
      simp only [Bind.bind, Except.bind, hs] at ho
      simpa using ho.symm
    rw [hout]
    exact runRules_trace_sublist sr tx
  cases rules with
  | nil =>
    have hsr : sr = [] := by
      simp [sortRulesE] at hs
      exact hs
    subst hsr
    exact ⟨by simp, by simp, hsub⟩
  | cons r rest =>
    cases rest with
    | nil =>
      have hsr : sr = [r] := by
        simp [sortRulesE] at hs
        exact hs.symm
      subst hsr
      exact ⟨by simp, by simp, hsub⟩
    | cons r2 rest2 =>
      unfold sortRulesE at hs
      simp only [List.map_cons] at hs
      split at hs
      case isTrue hcond =>
        simp only [Except.ok.injEq] at hs
        obtain ⟨c, hc⟩ := Option.isSome_iff_exists.mp hcond.1
        have hall : ∀ x ∈ r :: r2 :: rest2, keyClass (keyOf x) = some c := by
          intro x hx
          rcases List.mem_cons.mp hx with rfl | hx2
          · exact hc
          · have hmem : keyClass (keyOf x) ∈
                keyClass (keyOf r2) :: List.map (fun r => keyClass (keyOf r)) rest2 := by
              rcases List.mem_cons.mp hx2 with rfl | hx3
              · exact List.mem_cons_self _ _
              · exact List.mem_cons_of_mem _ (List.mem_map_of_mem _ hx3)
            have h3 := List.all_eq_true.mp hcond.2 _ hmem
            rw [of_decide_eq_true h3]
            exact hc
        subst hs
        exact ⟨sortRules_pairwise c _ hall,
          fun k => sortRules_filter_stable c k _ hall, hsub⟩
      case isFalse => exact absurd hs (by simp)

/-- Concrete instance of `c4_priority_order`: the spec's priorities-1-and-10
pair (both active, both erroring into the trace), where the priority-10
rule's trace entry precedes the priority-1 rule's. -/
theorem c4_priority_witness :
    ([vd [("id", .vInt 10), ("priority", .vInt 10)],
      vd [("id", .vInt 1), ("priority", .vInt 1)]] : List Dict).Pairwise
        (fun a b => valLt (keyOf a) (keyOf b) = false) ∧
    ([vd [("id", .vInt 10), ("priority", .vInt 10)],
      vd [("id", .vInt 1), ("priority", .vInt 1)]] : List Dict).filter
        (fun r => beqV (keyOf r) (.vInt 10)) =
      ([vd [("id", .vInt 1), ("priority", .vInt 1)],
        vd [("id", .vInt 10), ("priority", .vInt 10)]] : List Dict).filter
        (fun r => beqV (keyOf r) (.vInt 10)) ∧
    ((((.nil : Dict),
        [mkErrEntry (vd [("id", .vInt 10), ("priority", .vInt 10)]) "'condition'",
         mkErrEntry (vd [("id", .vInt 1), ("priority", .vInt 1)]) "'condition'"]) :
          Dict × List Dict).2.map (fun e => dGetD e "rule_id" .vNull)).Sublist
      ((([vd [("id", .vInt 10), ("priority", .vInt 10)],
          vd [("id", .vInt 1), ("priority", .vInt 1)]] : List Dict).filter
            (fun r => truthy (dGetD r "is_active" (.vBool true)))).map
        (fun r => dGetD r "id" .vNull)) := by
  have h := c4_priority_order .nil
    [vd [("id", .vInt 1), ("priority", .vInt 1)],
     vd [("id", .vInt 10), ("priority", .vInt 10)]]
    [vd [("id", .vInt 10), ("priority", .vInt 10)],
     vd [("id", .vInt 1), ("priority", .vInt 1)]] (by rfl)
  exact ⟨h.1, h.2.1 (.vInt 10), h.2.2
    (.nil, [mkErrEntry (vd [("id", .vInt 10), ("priority", .vInt 10)]) "'condition'",
            mkErrEntry (vd [("id", .vInt 1), ("priority", .vInt 1)]) "'condition'"])
    (by rfl)⟩

/-! ### C6: the caller's dict object is never mutated -/

theorem hget_mem_le_maxId : ∀ (h : Heap) (r : Nat) (d : Dict),
    hget h r = some d → r ≤ maxId h
  | [], r, d, hh => by simp [hget] at hh
  | (r1, d1) :: rest, r, d, hh => by
    unfold hget at hh
    show r ≤ max r1 (maxId rest)
    by_cases he : r1 = r
    · subst he
      exact le_max_left _ _
    · rw [if_neg he] at hh
      exact le_trans (hget_mem_le_maxId rest r d hh) (le_max_right _ _)

theorem maxId_hset (r : Nat) (d : Dict) : ∀ h : Heap,
    maxId (hset h r d) = maxId h
  | [] => rfl
  | (r1, d1) :: rest => by
    have ih := maxId_hset r d rest
    unfold hset maxId at ih ⊢
    simp only [List.map_cons, List.foldr_cons]
    by_cases he : r1 = r
    · rw [if_pos he, ih, he]
    · rw [if_neg he, ih]

theorem hget_hset_ne (r : Nat) (d : Dict) : ∀ (h : Heap) (p : Nat), p ≠ r →
    hget (hset h r d) p = hget h p
  | [], p, hp => rfl
  | (r1, d1) :: rest, p, hp => by
    have ih := hget_hset_ne r d rest p hp
    unfold hset at ih ⊢
    simp only [List.map_cons]
    by_cases he : r1 = r
    · rw [if_pos he]
      unfold hget
      rw [if_neg (fun hc : r = p => hp hc.symm),
        if_neg (fun hc : r1 = p => hp (hc ▸ he))]
      exact ih
    · rw [if_neg he]
      unfold hget
      by_cases h2 : r1 = p
      · rw [if_pos h2, if_pos h2]
      · rw [if_neg h2, if_neg h2]
        exact ih

theorem executeActH_frame (a : Value) (txr : Nat) (h : Heap) (r2 : Nat)
    (e : String) (h2 : Heap)
    (hok : executeActH a txr h = .ok (r2, e, h2)) :
    r2 = maxId h + 1 ∧ maxId h2 = maxId h + 1 ∧
      ∀ p, p ≤ maxId h → hget h2 p = hget h p := by
  unfold executeActH halloc at hok
  dsimp only at hok
  cases hex : executeAct a (hgetD ((maxId h + 1, hgetD h txr) :: h) (maxId h + 1)) with
  | error err =>
    rw [hex] at hok
    exact absurd hok (by simp)
  | ok pr =>
    obtain ⟨d2, expl⟩ := pr
    rw [hex] at hok
    simp only [Except.ok.injEq, Prod.mk.injEq] at hok
    obtain ⟨hr2, hee, hh2⟩ := hok
    refine ⟨hr2.symm, ?_, ?_⟩
    · rw [← hh2, maxId_hset]
      show max (maxId h + 1) (maxId h) = maxId h + 1
      omega
    · intro p hp
      rw [← hh2, hget_hset_ne _ _ _ _ (by omega)]
      show (if maxId h + 1 = p then some (hgetD h txr) else hget h p) = hget h p
      rw [if_neg (by omega)]

/-- Success of the per-rule body against the heap names the executed
action. -/
theorem tryBodyH_some (r : Dict) (mr : Nat) (h : Heap) (mr2 : Nat)
    (expl : String) (h2 : Heap)
    (hok : tryBodyH r mr h = .ok (some (mr2, expl, h2))) :
    ∃ a, executeActH a mr h = .ok (mr2, expl, h2) := by
  unfold tryBodyH getItem at hok
  simp only [Bind.bind, Except.bind] at hok
  iterate 6 all_goals try split at hok
  all_goals simp at hok
  subst hok
  exact ⟨_, by assumption⟩

theorem runRulesH_frame : ∀ (rs : List Dict) (mr : Nat) (h : Heap) (nn : Nat),
    nn ≤ maxId h → nn < mr →
    (∀ p, p ≤ nn → hget (runRulesH mr h rs).2.2 p = hget h p) ∧
      nn < (runRulesH mr h rs).1
  | [], mr, h, nn, _, hm => ⟨fun _ _ => rfl, hm⟩
  | r :: rs, mr, h, nn, hn, hm => by
    unfold runRulesH
    cases hact : truthy (dGetD r "is_active" (.vBool true)) with
    | false =>
      rw [if_pos rfl]
      exact runRulesH_frame rs mr h nn hn hm
    | true =>
      rw [if_neg (by simp)]
      cases htb : tryBodyH r mr h with
      | error msg =>
        rcases hr2 : runRulesH mr h rs with ⟨mrf, tr, hf⟩
        have ih := runRulesH_frame rs mr h nn hn hm
        rw [hr2] at ih
        dsimp only
        exact ih
      | ok o =>
        cases o with
        | none => exact runRulesH_frame rs mr h nn hn hm
        | some trip =>
          obtain ⟨mr2, expl, h2⟩ := trip
          obtain ⟨a, ha⟩ := tryBodyH_some r mr h mr2 expl h2 htb
          obtain ⟨hmr2, hmax2, hfr⟩ := executeActH_frame a mr h mr2 expl h2 ha
          dsimp only
          cases hstop : truthy (dGetD (hgetD h2 mr2) "_stop_processing" .vNull) with
          | true =>
            rw [if_pos rfl]
            dsimp only
            refine ⟨?_, by omega⟩
            intro p hp
            rw [hget_hset_ne _ _ _ _ (by omega)]
            exact hfr p (by omega)
          | false =>
            rw [if_neg (by simp)]
            rcases hr2 : runRulesH mr2 h2 rs with ⟨mrf, tr, hf⟩
            have ih := runRulesH_frame rs mr2 h2 nn (by omega) (by omega)
            rw [hr2] at ih
            dsimp only
            exact ⟨fun p hp => (ih.1 p hp).trans (hfr p (by omega)), ih.2⟩

/-- C6: the caller's transaction object is never mutated, neither by
`ActionExecutor.execute` nor by `evaluate_transaction`: in the heap
model, after either call the caller's reference still holds exactly the
dict it held before, and the returned working copy is a different
object (a fresh reference). -/
theorem c6_no_caller_mutation (h : Heap) (r0 : Nat) (d : Dict) (a : Value)
    (rules : List Dict) (h0 : hget h r0 = some d) :
    (∀ r2 e h2, executeActH a r0 h = .ok (r2, e, h2) →
      hget h2 r0 = some d ∧ r0 ≠ r2) ∧
    (∀ mrf tr hf, evaluateTransactionH r0 rules h = .ok (mrf, tr, hf) →
      hget hf r0 = some d ∧ r0 ≠ mrf) := by
  have hr0 : r0 ≤ maxId h := hget_mem_le_maxId h r0 d h0
  constructor
  · intro r2 e h2 hok
    obtain ⟨hr2, _, hfr⟩ := executeActH_frame a r0 h r2 e h2 hok
    refine ⟨?_, by omega⟩
    rw [hfr r0 hr0]
    exact h0
  · intro mrf tr hf hok
    unfold evaluateTransactionH halloc at hok
    simp only [Bind.bind, Except.bind] at hok
    cases hs : sortRulesE rules with
    | error err =>
      rw [hs] at hok
      exact absurd hok (by simp)
    | ok sr =>
      rw [hs] at hok
      dsimp only at hok
      have hmax1 : maxId ((maxId h + 1, hgetD h r0) :: h) = maxId h + 1 := by
        show max (maxId h + 1) (maxId h) = maxId h + 1
        omega
      have hloop := runRulesH_frame sr (maxId h + 1)
        ((maxId h + 1, hgetD h r0) :: h) (maxId h)
        (by rw [hmax1]; omega) (by omega)
      rcases hr2 : runRulesH (maxId h + 1) ((maxId h + 1, hgetD h r0) :: h) sr
        with ⟨mrf2, tr2, hf2⟩
      rw [hr2] at hloop hok
      simp only [Except.ok.injEq, Prod.mk.injEq] at hok
      obtain ⟨hm, ht, hh⟩ := hok
      subst hm
      subst hh
      refine ⟨?_, by omega⟩
      rw [hloop.1 r0 hr0]
      unfold hget
      rw [if_neg (by omega)]
      exact h0

/-- Concrete instance of `c6_no_caller_mutation`: one stored transaction,
one category-setting rule; the caller's object keeps its dict and the
result lives at a fresh reference. -/
theorem c6_no_caller_mutation_witness :
    (∀ r2 e h2, executeActH
        (.vDict (vd [("type", .vStr "set_category"), ("category_id", .vInt 5)])) 1
        [(1, vd [("amount", .vInt 9)])] = .ok (r2, e, h2) →
      hget h2 1 = some (vd [("amount", .vInt 9)]) ∧ 1 ≠ r2) ∧
    (∀ mrf tr hf, evaluateTransactionH 1
        [vd [("condition", leafCond "amount_gt" (.vInt 0)),
          ("action", .vDict (vd [("type", .vStr "set_category"), ("category_id", .vInt 5)]))]]
        [(1, vd [("amount", .vInt 9)])] = .ok (mrf, tr, hf) →
      hget hf 1 = some (vd [("amount", .vInt 9)]) ∧ 1 ≠ mrf) :=
  c6_no_caller_mutation [(1, vd [("amount", .vInt 9)])] 1 (vd [("amount", .vInt 9)])
    (.vDict (vd [("type", .vStr "set_category"), ("category_id", .vInt 5)]))
    [vd [("condition", leafCond "amount_gt" (.vInt 0)),
      ("action", .vDict (vd [("type", .vStr "set_category"), ("category_id", .vInt 5)]))]]
    (by rfl)

end FinAdvisor
